import Mathlib

/-!
# Verification of the uni-nav desktop-kiosk data-sync and pathfinding core

Shallow embedding of the kiosk's Local Store (`src/main/database.ts`), the
multi-floor A* pathfinding engine, the sync engine (`src/main/api-sync.ts`)
and the debounced-save persistence layer, together with proofs of the
specification's testable properties.

Modelling conventions:
* sql.js tables are lists of typed rows in insertion (rowid) order;
  `INSERT OR REPLACE` deletes the conflicting row and appends the new one,
  `DELETE ... WHERE` is a filter, `UPDATE` is a map.
* JavaScript numbers (planar coordinates, edge distances, costs) are modelled
  as real numbers; `Math.sqrt` is `Real.sqrt`.
* JavaScript `Map` objects are association lists: `set` updates the first
  binding in place (keeping its position, as JS `Map` does) or appends a new
  one, `delete` removes the binding, and iteration follows list order, which
  matches JS `Map` insertion-order iteration.
* The unbounded `while` loop of the A* search is modelled with explicit fuel;
  `none` means the fuel ran out, `some r` means the loop finished with
  result `r` (`r = none` being the "no path found" return).
-/

/-! ## Association-list model of JavaScript `Map` -/

/-- `Map.get`: value of the first binding of `key`, if any. -/
def lookupA {κ β : Type _} [DecidableEq κ] : List (κ × β) → κ → Option β
  | [], _ => none
  | (k, v) :: rest, key => if k = key then some v else lookupA rest key

/-- `Map.set`: update the first binding of `key` in place (JS `Map.set` keeps
the original insertion position), or append a fresh binding. -/
def setA {κ β : Type _} [DecidableEq κ] : List (κ × β) → κ → β → List (κ × β)
  | [], key, v => [(key, v)]
  | (k, v') :: rest, key, v =>
    if k = key then (k, v) :: rest else (k, v') :: setA rest key v

/-- `Map.delete`: remove the first binding of `key`. -/
def eraseA {κ β : Type _} [DecidableEq κ] : List (κ × β) → κ → List (κ × β)
  | [], _ => []
  | (k, v') :: rest, key => if k = key then rest else (k, v') :: eraseA rest key

/-! ## Data model (row types of `database.ts`) -/

/-- Row of the `floors` table (interface `Floor`). -/
structure Floor where
  id : Int
  name : String
  floor_number : Int
  image_url : Option String
  image_width : Option Int
  image_height : Option Int
  local_image_path : Option String
deriving DecidableEq

/-- Row of the `waypoints` table (interface `Waypoint`).  Planar coordinates
live in image-pixel space and are modelled as reals. -/
structure Waypoint where
  id : String
  floor_id : Int
  x : ℝ
  y : ℝ
  type : String
  label : Option String
  connects_to_floor : Option Int
  connects_to_waypoint : Option String

/-- Row of the `connections` table (interface `Connection`): an undirected
edge with a stored distance. -/
structure Connection where
  id : String
  from_waypoint_id : String
  to_waypoint_id : String
  distance : ℝ

/-- Row of the `rooms` table (interface `Room`). -/
structure Room where
  id : Int
  name : String
  waypoint_id : Option String
  floor_id : Option Int
  keywords : Option String
deriving DecidableEq

/-- Row of the `kiosks` table (interface `Kiosk`). -/
structure Kiosk where
  id : Int
  name : String
  floor_id : Int
  waypoint_id : Option String
  description : Option String
deriving DecidableEq

/-- Row of the `sync_info` key/value table. -/
structure SyncInfoRow where
  key : String
  value : String
  updated_at : String
deriving DecidableEq

/-- One step of a computed path (interface `PathStep`). -/
structure PathStep where
  waypoint_id : String
  floor_id : Int
  x : ℝ
  y : ℝ
  type : String
  label : Option String
  instruction : Option String

/-- A computed path (interface `NavigationResult`). -/
structure NavigationResult where
  path : List PathStep
  total_distance : ℝ
  floor_changes : Nat
  estimated_time_minutes : ℝ

/-- The Local Store: the in-memory sql.js database of `database.ts`, one list
of rows per table, each list in rowid order. -/
structure Store where
  floors : List Floor
  waypoints : List Waypoint
  connections : List Connection
  rooms : List Room
  kiosks : List Kiosk
  syncInfo : List SyncInfoRow

namespace Store

/-! ## Local Store operations (`database.ts`) -/

/-- Insert a floor in `ORDER BY floor_number` position (stable for equal
keys, mirroring a stable sort of the table). -/
def insertByNumber (f : Floor) : List Floor → List Floor
  | [] => [f]
  | g :: rest =>
    if f.floor_number < g.floor_number then f :: g :: rest
    else g :: insertByNumber f rest

/-- `SELECT * FROM floors ORDER BY floor_number` (method `getFloors`). -/
def getFloors (s : Store) : List Floor :=
  s.floors.foldr insertByNumber []

/-- `SELECT * FROM floors WHERE id = ?` (method `getFloor`). -/
def getFloor (s : Store) (id : Int) : Option Floor :=
  s.floors.find? (fun f => f.id = id)

/-- `DELETE FROM floors` (method `clearFloors`). -/
def clearFloors (s : Store) : Store := { s with floors := [] }

/-- `INSERT OR REPLACE` of one floor row: sqlite removes the row with the
conflicting primary key and appends the new row. -/
def replaceFloor (rows : List Floor) (f : Floor) : List Floor :=
  rows.filter (fun g => ¬ (g.id = f.id)) ++ [f]

/-- Method `upsertFloors`: `INSERT OR REPLACE` each row in order. -/
def upsertFloors (s : Store) (fs : List Floor) : Store :=
  { s with floors := fs.foldl replaceFloor s.floors }

/-- `UPDATE floors SET local_image_path = ? WHERE id = ?`
(method `setFloorLocalImagePath`). -/
def setFloorLocalImagePath (s : Store) (floorId : Int) (p : Option String) : Store :=
  { s with floors :=
      s.floors.map (fun f => if f.id = floorId then { f with local_image_path := p } else f) }

/-- `SELECT * FROM waypoints WHERE floor_id = ?` (method `getWaypointsByFloor`). -/
def getWaypointsByFloor (s : Store) (floorId : Int) : List Waypoint :=
  s.waypoints.filter (fun w => w.floor_id = floorId)

/-- `SELECT * FROM waypoints` (method `getAllWaypoints`). -/
def getAllWaypoints (s : Store) : List Waypoint := s.waypoints

/-- `DELETE FROM waypoints WHERE floor_id = ?` (method `clearWaypointsByFloor`). -/
def clearWaypointsByFloor (s : Store) (floorId : Int) : Store :=
  { s with waypoints := s.waypoints.filter (fun w => ¬ (w.floor_id = floorId)) }

/-- `INSERT OR REPLACE` of one waypoint row. -/
def replaceWaypoint (rows : List Waypoint) (w : Waypoint) : List Waypoint :=
  rows.filter (fun v => ¬ (v.id = w.id)) ++ [w]

/-- Method `upsertWaypoints`. -/
def upsertWaypoints (s : Store) (ws : List Waypoint) : Store :=
  { s with waypoints := ws.foldl replaceWaypoint s.waypoints }

/-- `SELECT * FROM connections` (method `getAllConnections`). -/
def getAllConnections (s : Store) : List Connection := s.connections

/-- `DELETE FROM connections WHERE from_waypoint_id IN
(SELECT id FROM waypoints WHERE floor_id = ?)` (method `clearConnectionsByFloor`). -/
def clearConnectionsByFloor (s : Store) (floorId : Int) : Store :=
  { s with connections :=
      s.connections.filter (fun c =>
        ¬ s.waypoints.any (fun w => w.id = c.from_waypoint_id ∧ w.floor_id = floorId)) }

/-- `INSERT OR REPLACE` of one connection row. -/
def replaceConnection (rows : List Connection) (c : Connection) : List Connection :=
  rows.filter (fun d => ¬ (d.id = c.id)) ++ [c]

/-- Method `upsertConnections`. -/
def upsertConnections (s : Store) (cs : List Connection) : Store :=
  { s with connections := cs.foldl replaceConnection s.connections }

/-- Insert a room in `ORDER BY name` position. -/
def insertByName (r : Room) : List Room → List Room
  | [] => [r]
  | q :: rest =>
    if r.name < q.name then r :: q :: rest else q :: insertByName r rest

/-- `SELECT * FROM rooms ORDER BY name` (method `getRooms`). -/
def getRooms (s : Store) : List Room :=
  s.rooms.foldr insertByName []

/-- `SELECT * FROM rooms WHERE id = ?` (method `getRoom`). -/
def getRoom (s : Store) (id : Int) : Option Room :=
  s.rooms.find? (fun r => r.id = id)

/-- `DELETE FROM rooms` (method `clearRooms`). -/
def clearRooms (s : Store) : Store := { s with rooms := [] }

/-- `INSERT OR REPLACE` of one room row. -/
def replaceRoom (rows : List Room) (r : Room) : List Room :=
  rows.filter (fun q => ¬ (q.id = r.id)) ++ [r]

/-- Method `upsertRooms`. -/
def upsertRooms (s : Store) (rs : List Room) : Store :=
  { s with rooms := rs.foldl replaceRoom s.rooms }

/-- Method `cleanupOrphans`: the four `DELETE` statements of the source, in
source order — waypoints with a dangling floor first, then connections with a
dangling `from` endpoint, then connections with a dangling `to` endpoint
(both checked against the already-cleaned waypoints), then rooms with a
non-null dangling floor, then kiosks with a dangling floor. -/
def cleanupOrphans (s : Store) : Store :=
  let waypoints := s.waypoints.filter (fun w => s.floors.any (fun f => f.id = w.floor_id))
  let connections := s.connections.filter (fun c =>
    waypoints.any (fun w => w.id = c.from_waypoint_id))
  let connections := connections.filter (fun c =>
    waypoints.any (fun w => w.id = c.to_waypoint_id))
  let rooms := s.rooms.filter (fun r =>
    match r.floor_id with
    | none => true
    | some fid => s.floors.any (fun f => f.id = fid))
  let kiosks := s.kiosks.filter (fun k => s.floors.any (fun f => f.id = k.floor_id))
  { s with waypoints := waypoints, connections := connections,
           rooms := rooms, kiosks := kiosks }

/-- `SELECT * FROM kiosks WHERE id = ?` (method `getKiosk`). -/
def getKiosk (s : Store) (id : Int) : Option Kiosk :=
  s.kiosks.find? (fun k => k.id = id)

/-- `DELETE FROM kiosks` (method `clearKiosks`). -/
def clearKiosks (s : Store) : Store := { s with kiosks := [] }

/-- `INSERT OR REPLACE` of one kiosk row. -/
def replaceKiosk (rows : List Kiosk) (k : Kiosk) : List Kiosk :=
  rows.filter (fun q => ¬ (q.id = k.id)) ++ [k]

/-- Method `upsertKiosks`. -/
def upsertKiosks (s : Store) (ks : List Kiosk) : Store :=
  { s with kiosks := ks.foldl replaceKiosk s.kiosks }

/-- `INSERT OR REPLACE INTO sync_info (key, value, updated_at)` with
`datetime('now')` passed in as `now` (method `setSyncInfo`). -/
def setSyncInfo (s : Store) (key value now : String) : Store :=
  { s with syncInfo :=
      s.syncInfo.filter (fun r => ¬ (r.key = key)) ++ [⟨key, value, now⟩] }

/-- `SELECT value FROM sync_info WHERE key = ?` (method `getSyncInfo`). -/
def getSyncInfo (s : Store) (key : String) : Option String :=
  (s.syncInfo.find? (fun r => r.key = key)).map (fun r => r.value)

end Store

/-! ## Pathfinding engine (`database.ts`, A* section)

Real-number comparisons in the search are classical; `Infinity` sentinels of
the source are modelled by `Option ℝ` (`none` = `Infinity`), which is
faithful because every stored `f`/`g` value in the source is a finite sum of
finite inputs. -/

open scoped Classical

namespace Store

/-- Method `heuristic`: Euclidean planar distance plus a fixed `100` penalty
when the two waypoints are on different floors. -/
noncomputable def heuristic (wfrom wto : Waypoint) : ℝ :=
  let dx := wfrom.x - wto.x
  let dy := wfrom.y - wto.y
  let floorPenalty : ℝ := if wfrom.floor_id ≠ wto.floor_id then 100 else 0
  Real.sqrt (dx * dx + dy * dy) + floorPenalty

/-- `if (!adj.has(u)) adj.set(u, []); adj.get(u)!.push(e)`: ensure the key
exists, then push the edge onto its (in-place) list. -/
def pushEdge (adj : List (String × List (String × ℝ))) (u : String) (e : String × ℝ) :
    List (String × List (String × ℝ)) :=
  match lookupA adj u with
  | none => setA adj u [e]
  | some l => setA adj u (l ++ [e])

/-- One `Connection` row inserted into the adjacency list in both
directions with its stored distance. -/
def addConnection (adj : List (String × List (String × ℝ))) (c : Connection) :
    List (String × List (String × ℝ)) :=
  let adj := pushEdge adj c.from_waypoint_id (c.to_waypoint_id, c.distance)
  pushEdge adj c.to_waypoint_id (c.from_waypoint_id, c.distance)

/-- The vertical-edge pass: for a stairs/elevator waypoint with a truthy
(non-null, non-empty) `connects_to_waypoint`, insert the bidirectional
vertical edge with the fixed traversal cost `50`. -/
def addVertical (adj : List (String × List (String × ℝ))) (w : Waypoint) :
    List (String × List (String × ℝ)) :=
  if w.type = "stairs" ∨ w.type = "elevator" then
    match w.connects_to_waypoint with
    | none => adj
    | some c =>
      if c = "" then adj
      else
        let adj := pushEdge adj w.id (c, 50)
        pushEdge adj c (w.id, 50)
  else adj

/-- Graph construction of `findPathBetweenWaypoints`: all connection rows
(both directions), then all vertical stairs/elevator edges. -/
def buildAdj (waypoints : List Waypoint) (connections : List Connection) :
    List (String × List (String × ℝ)) :=
  waypoints.foldl addVertical (connections.foldl addConnection [])

/-- `new Map(waypoints.map(w => [w.id, w]))`. -/
def waypointMapOf (ws : List Waypoint) : List (String × Waypoint) :=
  ws.foldl (fun m w => setA m w.id w) []

/-- The linear scan for the open-set entry with the lowest `f`: first
strict minimum in iteration order (`lowestF` starts at `Infinity`, so the
first entry always replaces the initial sentinel). -/
noncomputable def scanMin (l : List (String × ℝ)) : Option (String × ℝ) :=
  l.foldl
    (fun best p =>
      match best with
      | none => some p
      | some q => if p.2 < q.2 then some p else some q)
    none

/-- The three mutable maps of the A* search. -/
structure AState where
  openSet : List (String × ℝ)
  cameFrom : List (String × String)
  gScore : List (String × ℝ)

/-- The body of a successful relaxation: `cameFrom.set`, `gScore.set`, and
`openSet.set` with `f = tentativeG + (neighborWp ? heuristic(neighborWp, endWp) : 0)`. -/
noncomputable def relaxUpdate (wpMap : List (String × Waypoint)) (endWp : Waypoint)
    (current : String) (st : AState) (nb : String) (tentativeG : ℝ) : AState :=
  { openSet := setA st.openSet nb
      (tentativeG +
        match lookupA wpMap nb with
        | some nw => heuristic nw endWp
        | none => 0),
    cameFrom := setA st.cameFrom nb current,
    gScore := setA st.gScore nb tentativeG }

/-- Relaxation of one neighbour edge.  `gScore.get(current) ?? Infinity`
with a missing entry makes `tentativeG = Infinity`, which never beats any
bound, so that case leaves the state unchanged; a missing neighbour entry is
the `?? Infinity` bound that every finite tentative score beats. -/
noncomputable def relaxNeighbor (wpMap : List (String × Waypoint)) (endWp : Waypoint)
    (current : String) (st : AState) (e : String × ℝ) : AState :=
  match lookupA st.gScore current with
  | none => st
  | some gc =>
    let tentativeG := gc + e.2
    match lookupA st.gScore e.1 with
    | none => relaxUpdate wpMap endWp current st e.1 tentativeG
    | some gn =>
      if tentativeG < gn then relaxUpdate wpMap endWp current st e.1 tentativeG else st

/-- `switch (wp.type)` of method `getInstruction`; a falsy (null or empty)
label on a room yields no instruction. -/
def getInstruction (wp : Waypoint) : Option String :=
  if wp.type = "stairs" then some "Zinadan o\x27ting"
  else if wp.type = "elevator" then some "Lift bilan ko\x27tariling"
  else if wp.type = "room" then
    match wp.label with
    | none => none
    | some l => if l = "" then none else some ("\"" ++ l ++ "\" ga boring")
  else none

/-- Placeholder for `waypointMap.get(id)!` on a missing id (where the
source's non-null assertion would dereference `undefined`); unreachable on
the runs proved below. -/
def phantomWaypoint (id : String) : Waypoint := ⟨id, 0, 0, 0, "", none, none, none⟩

/-- The `while (current) { path.unshift(current); current = cameFrom.get(current) }`
walk, produced end-first (so the source's path is its reverse).  The walk is
bounded by fuel; `cameFrom.length + 1` steps suffice whenever the
back-pointer chain is acyclic, and the JS `while (current)` also stops on an
empty-string id. -/
def walkBack (cf : List (String × String)) : ℕ → String → List String
  | 0, _ => []
  | n + 1, cur =>
    if cur = "" then []
    else
      cur ::
        match lookupA cf cur with
        | none => []
        | some p => walkBack cf n p

/-- `floor_changes`: the number of adjacent path steps on different floors. -/
def countFloorChanges : List PathStep → ℕ
  | a :: b :: rest =>
    (if b.floor_id ≠ a.floor_id then 1 else 0) + countFloorChanges (b :: rest)
  | _ => 0

/-- Method `reconstructPath`: walk the `cameFrom` chain back from the goal,
reverse it, decorate each step, count floor changes, and derive the
estimated time as `totalDistance / 50`. -/
noncomputable def reconstructPath (cf : List (String × String)) (endId : String)
    (totalDistance : ℝ) (wpMap : List (String × Waypoint)) : NavigationResult :=
  let path := (walkBack cf (cf.length + 1) endId).reverse
  let pathSteps := path.map (fun id =>
    let wp := (lookupA wpMap id).getD (phantomWaypoint id)
    { waypoint_id := wp.id, floor_id := wp.floor_id, x := wp.x, y := wp.y,
      type := wp.type, label := wp.label, instruction := getInstruction wp : PathStep })
  { path := pathSteps,
    total_distance := totalDistance,
    floor_changes := countFloorChanges pathSteps,
    estimated_time_minutes := totalDistance / 50 }

/-- The `while (openSet.size > 0)` search loop, with explicit fuel.  Result
`none` is exhausted fuel (the source would still be looping); `some none` is
the source's `return null` (open set exhausted); `some (some r)` is a found
path.  `gScore.get(current)!` at the goal is totalised with `getD 0`
(the goal always has a score when popped). -/
noncomputable def astarLoop (adj : List (String × List (String × ℝ)))
    (wpMap : List (String × Waypoint)) (endWp : Waypoint) (endId : String) :
    ℕ → AState → Option (Option NavigationResult)
  | 0, _ => none
  | n + 1, st =>
    match scanMin st.openSet with
    | none => some none
    | some (current, _) =>
      if current = endId then
        some (some (reconstructPath st.cameFrom current
          ((lookupA st.gScore current).getD 0) wpMap))
      else
        let st1 : AState := { st with openSet := eraseA st.openSet current }
        let neighbors := (lookupA adj current).getD []
        astarLoop adj wpMap endWp endId n
          (neighbors.foldl (relaxNeighbor wpMap endWp current) st1)

/-- Method `findPathBetweenWaypoints`, with the loop fuel made explicit. -/
noncomputable def findPathBetweenWaypoints (s : Store) (fuel : ℕ)
    (startWaypointId endWaypointId : String) : Option (Option NavigationResult) :=
  let waypoints := s.getAllWaypoints
  let connections := s.getAllConnections
  let waypointMap := waypointMapOf waypoints
  match lookupA waypointMap startWaypointId, lookupA waypointMap endWaypointId with
  | some startWp, some endWp =>
    let adj := buildAdj waypoints connections
    astarLoop adj waypointMap endWp endWaypointId fuel
      { openSet := [(startWaypointId, heuristic startWp endWp)],
        cameFrom := [],
        gScore := [(startWaypointId, 0)] }
  | _, _ => some none

end Store

/-! ## Claim C1: A* optimality on the concrete triangle store -/

/-- Waypoint A(0,0) on floor 1. -/
def wpA : Waypoint := ⟨"A", 1, 0, 0, "corridor", none, none, none⟩

/-- Waypoint B(10,0) on floor 1. -/
def wpB : Waypoint := ⟨"B", 1, 10, 0, "corridor", none, none, none⟩

/-- Waypoint C(10,10) on floor 1. -/
def wpC : Waypoint := ⟨"C", 1, 10, 10, "corridor", none, none, none⟩

/-- The store of C1: exactly the waypoints A, B, C and the undirected
connections A-B (10), B-C (10), A-C (12). -/
def triangleStore : Store :=
  ⟨[], [wpA, wpB, wpC],
   [⟨"cAB", "A", "B", 10⟩, ⟨"cBC", "B", "C", 10⟩, ⟨"cAC", "A", "C", 12⟩],
   [], [], []⟩

/-- The path step for A produced by `reconstructPath`. -/
def stepA : PathStep := ⟨"A", 1, 0, 0, "corridor", none, none⟩

/-- The path step for C produced by `reconstructPath`. -/
def stepC : PathStep := ⟨"C", 1, 10, 10, "corridor", none, none⟩


/-! ## Claim C2: vertical-connector stores -/

/-- Stairs waypoint S1 on floor 1, vertically linked to S2. -/
def vertS1 (x1 y1 : ℝ) (lab1 : Option String) (cf1 : Option Int) : Waypoint :=
  ⟨"S1", 1, x1, y1, "stairs", lab1, cf1, some "S2"⟩

/-- Stairs waypoint S2 on floor 2 with no vertical link of its own. -/
def vertS2 (x2 y2 : ℝ) (lab2 : Option String) (cf2 : Option Int) : Waypoint :=
  ⟨"S2", 2, x2, y2, "stairs", lab2, cf2, none⟩

/-- A store whose waypoints are exactly S1 and S2 and which has no
connection rows (floors, rooms, kiosks and sync metadata are arbitrary —
the pathfinding engine does not read them). -/
def vertMinimalStore (x1 y1 x2 y2 : ℝ) (lab1 lab2 : Option String)
    (cf1 cf2 : Option Int) (fl : List Floor) (ro : List Room) (ki : List Kiosk)
    (si : List SyncInfoRow) : Store :=
  ⟨fl, [vertS1 x1 y1 lab1 cf1, vertS2 x2 y2 lab2 cf2], [], ro, ki, si⟩

/-- The C2 counterexample store: S1 and S2 exactly as in the claim, no
connection row joining S1 and S2, but two connection rows routing from S1 to
S2 through the dangling (nonexistent) waypoint id `D` at distance 1 each. -/
def vertCexStore : Store :=
  ⟨[], [vertS1 0 0 none (some 2), vertS2 0 0 none none],
   [⟨"c1", "S1", "D", 1⟩, ⟨"c2", "D", "S2", 1⟩], [], [], []⟩

/-! ## Claim C10: a surviving waypoint with a dangling vertical link -/

/-- A floor for the C10 witness store. -/
def c10Floor : Floor := ⟨1, "F1", 1, none, none, none, none⟩

/-- A stairs waypoint on an existing floor whose vertical link points to the
nonexistent waypoint id `GONE`. -/
def c10Waypoint : Waypoint := ⟨"W1", 1, 0, 0, "stairs", none, some 2, some "GONE"⟩

/-- The C10 witness store. -/
def c10Store : Store := ⟨[c10Floor], [c10Waypoint], [], [], [], []⟩

/-! ## Debounced persistence layer (`save` / `saveNow` / `flushSave`) -/

/-- State of the persistence layer of class `Database`: the in-memory sql.js
database, whether a debounced save timer is pending (`save()` always clears
any previous timer before scheduling, so at most one timer is ever pending,
and `timerPending` is `saveTimer !== null`), the last content exported to
disk, and a count of disk writes. -/
structure PersistState where
  mem : Store
  timerPending : Bool
  disk : Option Store
  diskWrites : ℕ

namespace PersistState

/-- Method `saveNow`: immediately export the in-memory database to disk. -/
def saveNow (st : PersistState) : PersistState :=
  { st with disk := some st.mem, diskWrites := st.diskWrites + 1 }

/-- Method `save`: clear any pending timer and schedule a new debounced
flush after the quiet window; no disk write happens now. -/
def save (st : PersistState) : PersistState :=
  { st with timerPending := true }

/-- The debounce timer firing after the quiet window elapses untouched:
write to disk and clear the timer. -/
def timerFires (st : PersistState) : PersistState :=
  if st.timerPending then { st.saveNow with timerPending := false } else st

/-- Method `flushSave`: if (and only if) a timer is pending, cancel it and
write synchronously. -/
def flushSave (st : PersistState) : PersistState :=
  if st.timerPending then { st.saveNow with timerPending := false } else st

/-- Method `upsertFloors` as seen by the persistence layer: mutate the
in-memory database, then call the debounced `save`. -/
def upsertFloorsP (st : PersistState) (fs : List Floor) : PersistState :=
  save { st with mem := st.mem.upsertFloors fs }

end PersistState

/-! ## Sync engine (`api-sync.ts`) -/

/-- Typed payload pulled from one remote endpoint.  `md5(JSON.stringify(data))`
is abstracted as an arbitrary fingerprint function `Payload → String`
(passed to each sync operation): the change-detection logic relies only on
the hash of identical payloads being identical. -/
inductive Payload
  | floors (d : List Floor)
  | rooms (d : List Room)
  | kiosks (d : List Kiosk)
  | waypoints (d : List Waypoint)
  | connections (d : List Connection)

/-- Key of the in-memory fingerprint cache `dataHashes`.  The source keys
the cache by the strings `floors`, `rooms`, `kiosks`, `waypoints_<floorId>`
and `connections_<floorId>`; the constructor tag plus floor id is exactly
that key. -/
inductive SyncKey
  | floors
  | rooms
  | kiosks
  | waypoints (floorId : Int)
  | connections (floorId : Int)
deriving DecidableEq

/-- The derived local image file `floor_<id>_<basename>` of a floor.  File
paths are modelled structurally (floor id plus basename), faithful because
distinct components yield distinct path strings. -/
structure ImagePath where
  floorId : Int
  base : String
deriving DecidableEq

/-- `path.basename(String(floor.image_url).split('?')[0])`. -/
def basenameOf (url : String) : String :=
  (((url.splitOn "?").headD "").splitOn "/").getLastD ""

/-- `floor_<id>_<basename || 'image'>`. -/
def imageFileFor (floorId : Int) (url : String) : ImagePath :=
  let b := basenameOf url
  ⟨floorId, if b = "" then "image" else b⟩

/-- `path.join(storageDir, 'images', filename)` — the string stored into
`local_image_path`. -/
def renderImagePath (storageDir : String) (p : ImagePath) : String :=
  storageDir ++ "/images/floor_" ++ toString p.floorId ++ "_" ++ p.base

/-- The remote server as a deterministic response table, one entry per
endpoint consumed by the sync engine; `Except String` is a request that
throws.  Two `syncAll` runs against the same `Remote` value are exactly two
runs with unchanged remote responses. -/
structure Remote where
  baseUrl : String
  health : Bool
  floorsResp : Except String (List Floor)
  roomsResp : Except String (List Room)
  kiosksResp : Except String (List Kiosk)
  waypointsResp : Int → Except String (List Waypoint)
  connectionsResp : Int → Except String (List Connection)
  imageResp : String → Except String Unit

/-- The state a sync run reads and writes: the Local Store, the
process-lifetime fingerprint cache (`dataHashes`), and the set of image
files existing on local disk. -/
structure SyncState where
  store : Store
  dataHashes : List (SyncKey × String)
  files : List ImagePath

/-- Method `hasChanged`: fingerprint the pulled payload and compare with the
cache; on a mismatch or a fresh key the cache entry is set — before any
store write — and `true` is returned. -/
def hasChanged (hashData : Payload → String) (st : SyncState) (key : SyncKey)
    (data : Payload) : Bool × SyncState :=
  let newHash := hashData data
  match lookupA st.dataHashes key with
  | some oldHash =>
    if oldHash = newHash then (false, st)
    else (true, { st with dataHashes := setA st.dataHashes key newHash })
  | none => (true, { st with dataHashes := setA st.dataHashes key newHash })

/-- Method `syncFloors`: GET `/api/floors/`, skip if unchanged, else
`clearFloors` + `upsertFloors`. -/
def syncFloors (hashData : Payload → String) (remote : Remote)
    (st : SyncState) : Except String SyncState :=
  match remote.floorsResp with
  | .error e => .error e
  | .ok newFloors =>
    let r := hasChanged hashData st .floors (.floors newFloors)
    if r.1 then
      .ok { r.2 with store := (r.2.store.clearFloors).upsertFloors newFloors }
    else .ok r.2

/-- Method `syncRooms`. -/
def syncRooms (hashData : Payload → String) (remote : Remote)
    (st : SyncState) : Except String SyncState :=
  match remote.roomsResp with
  | .error e => .error e
  | .ok d =>
    let r := hasChanged hashData st .rooms (.rooms d)
    if r.1 then
      .ok { r.2 with store := (r.2.store.clearRooms).upsertRooms d }
    else .ok r.2

/-- Method `syncKiosks`. -/
def syncKiosks (hashData : Payload → String) (remote : Remote)
    (st : SyncState) : Except String SyncState :=
  match remote.kiosksResp with
  | .error e => .error e
  | .ok d =>
    let r := hasChanged hashData st .kiosks (.kiosks d)
    if r.1 then
      .ok { r.2 with store := (r.2.store.clearKiosks).upsertKiosks d }
    else .ok r.2

/-- Method `syncWaypointsForFloor`. -/
def syncWaypointsForFloor (hashData : Payload → String) (remote : Remote)
    (floorId : Int) (st : SyncState) : Except String SyncState :=
  match remote.waypointsResp floorId with
  | .error e => .error e
  | .ok d =>
    let r := hasChanged hashData st (.waypoints floorId) (.waypoints d)
    if r.1 then
      .ok { r.2 with store := (r.2.store.clearWaypointsByFloor floorId).upsertWaypoints d }
    else .ok r.2

/-- Method `syncConnectionsForFloor`. -/
def syncConnectionsForFloor (hashData : Payload → String) (remote : Remote)
    (floorId : Int) (st : SyncState) : Except String SyncState :=
  match remote.connectionsResp floorId with
  | .error e => .error e
  | .ok d =>
    let r := hasChanged hashData st (.connections floorId) (.connections d)
    if r.1 then
      .ok { r.2 with store := (r.2.store.clearConnectionsByFloor floorId).upsertConnections d }
    else .ok r.2

/-- `url.startsWith('http') ? url : baseUrl + (url.startsWith('/') ? '' : '/') + url`. -/
def resolveImageUrl (baseUrl url : String) : String :=
  if url.startsWith "http" then url
  else baseUrl ++ (if url.startsWith "/" then "" else "/") ++ url

/-- One floor of `syncFloorImages`: skip a falsy `image_url`; if the target
file already exists just (re-)record its path on the floor row; otherwise
download, and on success write the file and record the path — a download
failure is logged and skipped. -/
def syncFloorImage (storageDir : String) (remote : Remote) (st : SyncState)
    (floor : Floor) : SyncState :=
  match floor.image_url with
  | none => st
  | some url =>
    if url = "" then st
    else
      let imgUrl := resolveImageUrl remote.baseUrl url
      let target := imageFileFor floor.id url
      if target ∈ st.files then
        { st with store :=
            st.store.setFloorLocalImagePath floor.id (some (renderImagePath storageDir target)) }
      else
        match remote.imageResp imgUrl with
        | .ok _ =>
          { st with files := target :: st.files,
                    store := st.store.setFloorLocalImagePath floor.id
                      (some (renderImagePath storageDir target)) }
        | .error _ => st

/-- Method `syncFloorImages`: early return on an empty floors table, else
process every floor; never throws (every per-floor failure is caught). -/
def syncFloorImages (storageDir : String) (remote : Remote) (st : SyncState) :
    SyncState :=
  let floors := st.store.getFloors
  if floors = [] then st
  else floors.foldl (syncFloorImage storageDir remote) st

/-- The `try { await step } catch { logger.warn }` wrapper of `syncAll`: a
thrown step leaves the state as it was when the step threw; every `syncX`
step can only throw at its initial GET, before any mutation, so the caught
state is the input state. -/
def attemptSync (step : SyncState → Except String SyncState) (st : SyncState) :
    SyncState :=
  match step st with
  | .ok st' => st'
  | .error _ => st

/-- The resource phase of `syncAll`, in source order: floors → floor images
→ rooms → kiosks → then, per floor of the (now-synced) floors table,
waypoints and connections — each wrapped so one failure skips only that
resource. -/
def syncResources (hashData : Payload → String) (storageDir : String)
    (remote : Remote) (st : SyncState) : SyncState :=
  let st := attemptSync (syncFloors hashData remote) st
  let st := syncFloorImages storageDir remote st
  let st := attemptSync (syncRooms hashData remote) st
  let st := attemptSync (syncKiosks hashData remote) st
  let floors := st.store.getFloors
  floors.foldl
    (fun acc floor =>
      attemptSync (syncConnectionsForFloor hashData remote floor.id)
        (attemptSync (syncWaypointsForFloor hashData remote floor.id) acc))
    st

/-- Method `syncAll`: fail fast with `Server is not reachable` when the
health probe fails; otherwise run the resource phase, record the `last_sync`
timestamp, then run `cleanupOrphans` — and return normally. -/
def syncAll (hashData : Payload → String) (storageDir : String) (remote : Remote)
    (now : String) (st : SyncState) : Except String SyncState :=
  if remote.health then
    let st := syncResources hashData storageDir remote st
    .ok { st with store := (st.store.setSyncInfo "last_sync" now now).cleanupOrphans }
  else .error "Server is not reachable"

/-- `syncFloors` when the `clearFloors` + `upsertFloors` write throws after
`hasChanged` answered `true` (any sql.js failure; `syncAll`'s wrapper
catches it): the effects before the throw persist — the GET and the
fingerprint-cache update — while the store write never happens. -/
def syncFloorsWriteFailed (hashData : Payload → String) (remote : Remote)
    (st : SyncState) : SyncState :=
  match remote.floorsResp with
  | .error _ => st
  | .ok newFloors => (hasChanged hashData st .floors (.floors newFloors)).2

/-! ## Concrete sync fixtures for witnesses -/

/-- A concrete floor row for sync witnesses. -/
def c9Floor : Floor := ⟨7, "F7", 7, none, none, none, none⟩

/-- A concrete fully-reachable remote whose every endpoint succeeds. -/
def c9Remote : Remote :=
  ⟨"http://srv", true, .ok [c9Floor], .ok [], .ok [],
   fun _ => .ok [], fun _ => .ok [], fun _ => .ok ()⟩

/-- An empty initial sync state (fresh process, empty store). -/
def c9State : SyncState := ⟨⟨[], [], [], [], [], []⟩, [], []⟩

/-- A concrete fingerprint function for witnesses. -/
def c9Hash : Payload → String := fun _ => "h"

/-- A concrete unreachable remote (failed health probe). -/
def c6OfflineRemote : Remote :=
  ⟨"http://srv", false, .error "down", .error "down", .error "down",
   fun _ => .error "down", fun _ => .error "down", fun _ => .error "down"⟩

/-! ## Invariants for the idempotent-sync proof (claim C3) -/

/-- After a successful sync, every successful endpoint's fingerprint is in
the cache (floor-scoped keys for every floor id present in the table). -/
def CacheOk (hashData : Payload → String) (remote : Remote) (st : SyncState) : Prop :=
  (∀ d, remote.floorsResp = .ok d →
    lookupA st.dataHashes SyncKey.floors = some (hashData (.floors d))) ∧
  (∀ d, remote.roomsResp = .ok d →
    lookupA st.dataHashes SyncKey.rooms = some (hashData (.rooms d))) ∧
  (∀ d, remote.kiosksResp = .ok d →
    lookupA st.dataHashes SyncKey.kiosks = some (hashData (.kiosks d))) ∧
  (∀ i d, remote.waypointsResp i = .ok d → i ∈ st.store.floors.map Floor.id →
    lookupA st.dataHashes (SyncKey.waypoints i) = some (hashData (.waypoints d))) ∧
  (∀ i d, remote.connectionsResp i = .ok d → i ∈ st.store.floors.map Floor.id →
    lookupA st.dataHashes (SyncKey.connections i) = some (hashData (.connections d)))

/-- After a successful sync, every floor row with a truthy image url either
has its image file on disk with `local_image_path` already recording it, or
its download fails against this remote — so a repeat image pass is a no-op. -/
def ImagesOk (storageDir : String) (remote : Remote) (st : SyncState) : Prop :=
  ∀ f ∈ st.store.floors, ∀ url, f.image_url = some url → ¬ (url = "") →
    (imageFileFor f.id url ∈ st.files ∧
      f.local_image_path = some (renderImagePath storageDir (imageFileFor f.id url))) ∨
    (¬ (imageFileFor f.id url ∈ st.files) ∧
      ∃ e, remote.imageResp (resolveImageUrl remote.baseUrl url) = .error e)

/-- The sync state produced by one full `syncAll` run against `c9Remote`
from the empty `c9State` (used to witness the idempotent-sync theorem). -/
def c3RunOne : SyncState :=
  ⟨⟨[c9Floor], [], [], [], [], [⟨"last_sync", "t1", "t1"⟩]⟩,
   [(SyncKey.floors, "h"), (SyncKey.rooms, "h"), (SyncKey.kiosks, "h"),
    (SyncKey.waypoints 7, "h"), (SyncKey.connections 7, "h")], []⟩

/-! ## Reachability and termination measure for the A* search (claim C5) -/

/-- One directed hop along the built adjacency structure. -/
def AdjStep (adj : List (String × List (String × ℝ))) (u v : String) : Prop :=
  ∃ w, (v, w) ∈ (lookupA adj u).getD []

/-- A walk from `start` through the adjacency structure, recorded as the
list of (node, entry-cost) pairs, starting with `(start, 0)`. -/
inductive GPath (adj : List (String × List (String × ℝ))) (start : String) :
    List (String × ℝ) → String → Prop
  | base : GPath adj start [(start, 0)] start
  | step {p : List (String × ℝ)} {u v : String} {w : ℝ} :
      GPath adj start p u → (v, w) ∈ (lookupA adj u).getD [] →
      GPath adj start (p ++ [(v, w)]) v

/-- The total cost of a recorded walk. -/
noncomputable def weightSum (p : List (String × ℝ)) : ℝ := (p.map Prod.snd).sum

/-- All edge-target nodes of the adjacency structure. -/
def adjTargets (adj : List (String × List (String × ℝ))) : List String :=
  (adj.map (fun q => q.2.map Prod.fst)).join

/-- All nodes the search can ever score: the start plus every edge target. -/
def nodeSupport (adj : List (String × List (String × ℝ))) (start : String) :
    List String :=
  start :: adjTargets adj

/-- All (target, cost) edge pairs of the adjacency structure. -/
def adjPairs (adj : List (String × List (String × ℝ))) : List (String × ℝ) :=
  (adj.map (fun q => q.2)).join

/-- All pairs that can occur on a recorded walk. -/
def pairSupport (adj : List (String × List (String × ℝ))) (start : String) :
    List (String × ℝ) :=
  (start, 0) :: adjPairs adj

/-- All lists over `L` of length at most `n`. -/
def listsLE {α : Type _} (L : List α) : ℕ → List (List α)
  | 0 => [[]]
  | n + 1 => [] :: L.bind (fun x => (listsLE L n).map (fun t => x :: t))

/-- Every cost a duplicate-free recorded walk can have (a finite list). -/
noncomputable def candWeights (adj : List (String × List (String × ℝ)))
    (start : String) : List ℝ :=
  (listsLE (pairSupport adj start) (pairSupport adj start).length).map weightSum

/-- How many candidate costs lie strictly below `g`. -/
noncomputable def rankR (cand : List ℝ) (g : ℝ) : ℕ :=
  cand.countP (fun x => decide (x < g))

/-- Sum of the ranks of all scores of a score map. -/
noncomputable def sumRanks (cand : List ℝ) (l : List (String × ℝ)) : ℕ :=
  (l.map (fun q => rankR cand q.2)).sum

/-- The termination measure of the A* loop: every strict score improvement
lowers a rank, every fresh score spends the slack of the node budget, and
every iteration pops one open-set entry. -/
noncomputable def measureA (adj : List (String × List (String × ℝ)))
    (start : String) (st : Store.AState) : ℕ :=
  sumRanks (candWeights adj start) st.gScore
    + ((candWeights adj start).length + 1)
      * ((nodeSupport adj start).toFinset.card - st.gScore.length)
    + st.openSet.length

/-- Every nonempty prefix of the walk is already bounded by the score of
its endpoint. -/
def PathBound (gScore : List (String × ℝ)) (p : List (String × ℝ)) : Prop :=
  ∀ p1 x w p2, p = p1 ++ (x, w) :: p2 →
    ∃ gx, lookupA gScore x = some gx ∧ gx ≤ weightSum (p1 ++ [(x, w)])

/-- A score-map entry is witnessed by a duplicate-free recorded walk of
exactly its cost whose prefixes are all score-bounded. -/
def GoodEntry (adj : List (String × List (String × ℝ))) (start : String)
    (gScore : List (String × ℝ)) (v : String) (g : ℝ) : Prop :=
  ∃ p, GPath adj start p v ∧ (p.map Prod.fst).Nodup ∧ weightSum p = g ∧
    PathBound gScore p

/-- The A* loop invariant: score keys are distinct and supported, every
score is walk-witnessed, and every open-set key is scored. -/
def AInv (adj : List (String × List (String × ℝ))) (start : String)
    (st : Store.AState) : Prop :=
  (st.gScore.map Prod.fst).Nodup ∧
  (∀ q ∈ st.gScore, q.1 ∈ nodeSupport adj start) ∧
  (∀ q ∈ st.gScore, GoodEntry adj start st.gScore q.1 q.2) ∧
  (∀ q ∈ st.openSet, ∃ g, lookupA st.gScore q.1 = some g)

/-! ## Concrete disconnected store (C5 witness) -/

/-- Two isolated corridor waypoints with no connections at all. -/
def discStore : Store :=
  ⟨[], [⟨"A", 1, 0, 0, "corridor", none, none, none⟩,
        ⟨"B", 1, 5, 5, "corridor", none, none, none⟩], [], [], [], []⟩

/-! ## The error path of `reconstructPath`, modelled fallibly (claim C2) -/

namespace Store

/-- Method `reconstructPath` with the source's `waypointMap.get(id)!`
dereference modelled fallibly: decorating a walked path id that is absent
from the waypoint map reads `wp.id` off `undefined`, which is the thrown
`TypeError` (`.error`); on fully resolvable paths this agrees with
`reconstructPath`. -/
noncomputable def reconstructPathE (cf : List (String × String)) (endId : String)
    (totalDistance : ℝ) (wpMap : List (String × Waypoint)) :
    Except String NavigationResult :=
  let path := (walkBack cf (cf.length + 1) endId).reverse
  match path.mapM (fun id => lookupA wpMap id) with
  | none => .error "TypeError"
  | some wps =>
    let pathSteps := wps.map (fun wp =>
      { waypoint_id := wp.id, floor_id := wp.floor_id, x := wp.x, y := wp.y,
        type := wp.type, label := wp.label,
        instruction := getInstruction wp : PathStep })
    .ok { path := pathSteps,
          total_distance := totalDistance,
          floor_changes := countFloorChanges pathSteps,
          estimated_time_minutes := totalDistance / 50 }

/-- The search loop of `findPathBetweenWaypoints` over the fallible
`reconstructPathE`: `none` is exhausted fuel, `some (.error e)` is a thrown
exception, `some (.ok none)` is the source's `return null`, and
`some (.ok (some r))` is a returned result. -/
noncomputable def astarLoopE (adj : List (String × List (String × ℝ)))
    (wpMap : List (String × Waypoint)) (endWp : Waypoint) (endId : String) :
    ℕ → AState → Option (Except String (Option NavigationResult))
  | 0, _ => none
  | n + 1, st =>
    match scanMin st.openSet with
    | none => some (.ok none)
    | some (current, _) =>
      if current = endId then
        some ((reconstructPathE st.cameFrom current
          ((lookupA st.gScore current).getD 0) wpMap).map some)
      else
        let st1 : AState := { st with openSet := eraseA st.openSet current }
        let neighbors := (lookupA adj current).getD []
        astarLoopE adj wpMap endWp endId n
          (neighbors.foldl (relaxNeighbor wpMap endWp current) st1)

/-- Method `findPathBetweenWaypoints` over the fallible loop. -/
noncomputable def findPathBetweenWaypointsE (s : Store) (fuel : ℕ)
    (startWaypointId endWaypointId : String) :
    Option (Except String (Option NavigationResult)) :=
  let waypoints := s.getAllWaypoints
  let connections := s.getAllConnections
  let waypointMap := waypointMapOf waypoints
  match lookupA waypointMap startWaypointId, lookupA waypointMap endWaypointId with
  | some startWp, some endWp =>
    let adj := buildAdj waypoints connections
    astarLoopE adj waypointMap endWp endWaypointId fuel
      { openSet := [(startWaypointId, heuristic startWp endWp)],
        cameFrom := [],
        gScore := [(startWaypointId, 0)] }
  | _, _ => some (.ok none)

end Store

/-! # Theorems -/

/-! ## Claim C4 -/

/-- **C4.** For every store state, after `cleanupOrphans()` returns: every
remaining waypoint's `floor_id` is the id of an existing floor; every
remaining connection's `from_waypoint_id` and `to_waypoint_id` are ids of
existing waypoints; every remaining room with a non-null `floor_id` has a
`floor_id` that is the id of an existing floor; and every remaining kiosk's
`floor_id` is the id of an existing floor. -/
theorem cleanupOrphans_referential_integrity (s : Store) :
    (∀ w ∈ (s.cleanupOrphans).waypoints,
        ∃ f ∈ (s.cleanupOrphans).floors, f.id = w.floor_id) ∧
    (∀ c ∈ (s.cleanupOrphans).connections,
        (∃ w ∈ (s.cleanupOrphans).waypoints, w.id = c.from_waypoint_id) ∧
        (∃ w ∈ (s.cleanupOrphans).waypoints, w.id = c.to_waypoint_id)) ∧
    (∀ r ∈ (s.cleanupOrphans).rooms, ∀ fid, r.floor_id = some fid →
        ∃ f ∈ (s.cleanupOrphans).floors, f.id = fid) ∧
    (∀ k ∈ (s.cleanupOrphans).kiosks,
        ∃ f ∈ (s.cleanupOrphans).floors, f.id = k.floor_id) := by
  refine ⟨?_, ?_, ?_, ?_⟩
  · intro w hw
    simp only [Store.cleanupOrphans, List.mem_filter, List.any_eq_true,
      decide_eq_true_eq] at hw ⊢
    exact hw.2
  · intro c hc
    simp only [Store.cleanupOrphans, List.mem_filter, List.any_eq_true,
      decide_eq_true_eq] at hc ⊢
    exact ⟨hc.1.2, hc.2⟩
  · intro r hr fid hfid
    simp only [Store.cleanupOrphans, List.mem_filter] at hr ⊢
    have h2 := hr.2
    rw [hfid] at h2
    simpa only [List.any_eq_true, decide_eq_true_eq] using h2
  · intro k hk
    simp only [Store.cleanupOrphans, List.mem_filter, List.any_eq_true,
      decide_eq_true_eq] at hk ⊢
    exact hk.2


/-- **C1.** On the concrete store with waypoints A(0,0), B(10,0), C(10,10) on
floor 1 and undirected connections A-B distance 10, B-C distance 10, A-C
distance 12, `findPathBetweenWaypoints(A, C)` returns the direct path A then
C with `total_distance = 12`, not the distance-20 route through B (two loop
iterations suffice, and any additional fuel gives the same answer). -/
theorem findPath_triangle_direct (fuel : ℕ) :
    Store.findPathBetweenWaypoints triangleStore (fuel + 2) "A" "C" =
      some (some ⟨[stepA, stepC], 12, 0, 12 / 50⟩) := by
  have h100 : Real.sqrt (10 * 10 : ℝ) = 10 := by
    rw [show (10 * 10 : ℝ) = 10 ^ 2 by ring]
    exact Real.sqrt_sq (by norm_num)
  have hlt : (12 : ℝ) < 10 + 10 := by norm_num
  rw [show fuel + 2 = fuel + 1 + 1 from rfl]
  simp [Store.findPathBetweenWaypoints, Store.getAllWaypoints,
    Store.getAllConnections, Store.waypointMapOf, Store.buildAdj,
    Store.addConnection, Store.addVertical, Store.pushEdge, Store.heuristic,
    Store.astarLoop, Store.scanMin, Store.relaxNeighbor, Store.relaxUpdate,
    Store.reconstructPath, Store.walkBack, Store.countFloorChanges,
    Store.getInstruction, Store.phantomWaypoint, lookupA, setA, eraseA,
    wpA, wpB, wpC, triangleStore, stepA, stepC, h100, hlt]

/-! ## Association-list and adjacency lemmas -/

theorem lookupA_setA {κ β : Type _} [DecidableEq κ] (l : List (κ × β)) (k key : κ) (v : β) :
    lookupA (setA l k v) key = if k = key then some v else lookupA l key := by
  induction l with
  | nil => simp [setA, lookupA]
  | cons p rest ih =>
    obtain ⟨k', v'⟩ := p
    simp only [setA]
    by_cases h1 : k' = k
    · subst h1
      by_cases h2 : k' = key
      · subst h2; simp [lookupA]
      · simp [lookupA, h2]
    · rw [if_neg h1]
      by_cases h2 : k' = key
      · subst h2
        have hk : ¬ (k = k') := fun h => h1 h.symm
        simp [lookupA, hk]
      · simp [lookupA, h2, ih]

theorem mem_lookupA_pushEdge_self (adj : List (String × List (String × ℝ)))
    (u : String) (e : String × ℝ) :
    e ∈ (lookupA (Store.pushEdge adj u e) u).getD [] := by
  unfold Store.pushEdge
  cases h : lookupA adj u with
  | none => simp [lookupA_setA]
  | some l => simp [lookupA_setA]

theorem mem_lookupA_pushEdge_mono (adj : List (String × List (String × ℝ)))
    (u u' : String) (e e' : String × ℝ)
    (hm : e ∈ (lookupA adj u).getD []) :
    e ∈ (lookupA (Store.pushEdge adj u' e') u).getD [] := by
  unfold Store.pushEdge
  cases h : lookupA adj u' with
  | none =>
    rw [lookupA_setA]
    by_cases hu : u' = u
    · subst hu; rw [h] at hm; simp at hm
    · simpa [hu] using hm
  | some l =>
    rw [lookupA_setA]
    by_cases hu : u' = u
    · subst hu; rw [h] at hm
      simp only [Option.getD_some] at hm
      simp [List.mem_append, hm]
    · simpa [hu] using hm

theorem mem_lookupA_addVertical_mono (adj : List (String × List (String × ℝ)))
    (w : Waypoint) (u : String) (e : String × ℝ)
    (hm : e ∈ (lookupA adj u).getD []) :
    e ∈ (lookupA (Store.addVertical adj w) u).getD [] := by
  unfold Store.addVertical
  by_cases ht : w.type = "stairs" ∨ w.type = "elevator"
  · simp only [if_pos ht]
    cases hc : w.connects_to_waypoint with
    | none => simp only [hc]; exact hm
    | some c =>
      simp only [hc]
      by_cases hce : c = ""
      · simp only [if_pos hce]; exact hm
      · simp only [if_neg hce]
        exact mem_lookupA_pushEdge_mono _ _ _ _ _ (mem_lookupA_pushEdge_mono _ _ _ _ _ hm)
  · simp only [if_neg ht]; exact hm

theorem addVertical_adds (adj : List (String × List (String × ℝ)))
    (w : Waypoint) (X : String)
    (htype : w.type = "stairs" ∨ w.type = "elevator")
    (hcts : w.connects_to_waypoint = some X) (hne : ¬ (X = "")) :
    (X, 50) ∈ (lookupA (Store.addVertical adj w) w.id).getD [] ∧
    (w.id, 50) ∈ (lookupA (Store.addVertical adj w) X).getD [] := by
  unfold Store.addVertical
  rw [if_pos htype, hcts]
  simp only [if_neg hne]
  exact ⟨mem_lookupA_pushEdge_mono _ _ _ _ _ (mem_lookupA_pushEdge_self _ _ _),
    mem_lookupA_pushEdge_self _ _ _⟩

theorem mem_lookupA_foldl_addVertical_mono (ws : List Waypoint)
    (adj : List (String × List (String × ℝ))) (u : String) (e : String × ℝ)
    (hm : e ∈ (lookupA adj u).getD []) :
    e ∈ (lookupA (ws.foldl Store.addVertical adj) u).getD [] := by
  induction ws generalizing adj with
  | nil => exact hm
  | cons w rest ih => exact ih _ (mem_lookupA_addVertical_mono _ _ _ _ hm)

theorem buildAdj_vertical_mem (ws : List Waypoint) (cs : List Connection)
    (w : Waypoint) (X : String) (hw : w ∈ ws)
    (htype : w.type = "stairs" ∨ w.type = "elevator")
    (hcts : w.connects_to_waypoint = some X) (hne : ¬ (X = "")) :
    (X, 50) ∈ (lookupA (Store.buildAdj ws cs) w.id).getD [] ∧
    (w.id, 50) ∈ (lookupA (Store.buildAdj ws cs) X).getD [] := by
  unfold Store.buildAdj
  obtain ⟨l1, l2, rfl⟩ := List.append_of_mem hw
  rw [List.foldl_append]
  simp only [List.foldl_cons]
  have h := addVertical_adds (l1.foldl Store.addVertical (cs.foldl Store.addConnection []))
    w X htype hcts hne
  exact ⟨mem_lookupA_foldl_addVertical_mono _ _ _ _ h.1,
    mem_lookupA_foldl_addVertical_mono _ _ _ _ h.2⟩

theorem cleanupOrphans_waypoints_sub (s : Store) :
    ∀ w ∈ (s.cleanupOrphans).waypoints, w ∈ s.waypoints := by
  intro w hw
  simp only [Store.cleanupOrphans, List.mem_filter] at hw
  exact hw.1

/-! ## Claim C2 -/

/-- **C2, counterexample.** The claim fails as stated: in the store
`vertCexStore` — which contains S1 (stairs, floor 1,
`connects_to_waypoint = S2`) and S2 (stairs, floor 2) and no connection row
joining them — `findPathBetweenWaypoints(S1, S2)` does not return a
`NavigationResult` at all: the two connection rows through the dangling id
`D` (total planar cost 2) beat the vertical edge of cost 50, the walked-back
path is S1 → D → S2, and `reconstructPath` dereferences
`waypointMap.get("D")!` on the missing id — the thrown `TypeError`. -/
theorem findPath_vertical_cex :
    Store.findPathBetweenWaypointsE vertCexStore 3 "S1" "S2"
      = some (.error "TypeError") := by
  have h1 : ¬ ((50 : ℝ) < 1) := by norm_num
  have h2 : ¬ ((1 : ℝ) + 1 < 0) := by norm_num
  have h3 : ((1 : ℝ) + 1 < 50) := by norm_num
  rw [show (3 : ℕ) = 0 + 1 + 1 + 1 from rfl]
  simp [Store.findPathBetweenWaypointsE, Store.getAllWaypoints,
    Store.getAllConnections, Store.waypointMapOf, Store.buildAdj,
    Store.addConnection, Store.addVertical, Store.pushEdge, Store.heuristic,
    Store.astarLoopE, Store.scanMin, Store.relaxNeighbor, Store.relaxUpdate,
    Store.reconstructPathE, Store.walkBack, List.mapM.loop, Except.map,
    lookupA, setA, eraseA, vertCexStore, vertS1, vertS2, h1, h2, h3]

/-- **C2, amended.** For every store whose waypoints are exactly
S1 (stairs, floor 1, `connects_to_waypoint = S2`) and S2 (stairs, floor 2, no
vertical link of its own) and which has no connection rows: the constructed
graph carries the bidirectional vertical edge with the fixed traversal cost
50, `findPathBetweenWaypoints` finds a path in both directions, and each
returned result has `total_distance = 50` (the vertical-transition constant)
and `floor_changes = 1`. -/
theorem findPath_vertical_minimal (x1 y1 x2 y2 : ℝ) (lab1 lab2 : Option String)
    (cf1 cf2 : Option Int) (fl : List Floor) (ro : List Room) (ki : List Kiosk)
    (si : List SyncInfoRow) (fuel : ℕ) :
    lookupA (Store.buildAdj
        (Store.getAllWaypoints (vertMinimalStore x1 y1 x2 y2 lab1 lab2 cf1 cf2 fl ro ki si))
        (Store.getAllConnections (vertMinimalStore x1 y1 x2 y2 lab1 lab2 cf1 cf2 fl ro ki si)))
        "S1" = some [("S2", 50)] ∧
    lookupA (Store.buildAdj
        (Store.getAllWaypoints (vertMinimalStore x1 y1 x2 y2 lab1 lab2 cf1 cf2 fl ro ki si))
        (Store.getAllConnections (vertMinimalStore x1 y1 x2 y2 lab1 lab2 cf1 cf2 fl ro ki si)))
        "S2" = some [("S1", 50)] ∧
    Store.findPathBetweenWaypoints (vertMinimalStore x1 y1 x2 y2 lab1 lab2 cf1 cf2 fl ro ki si)
        (fuel + 2) "S1" "S2" =
      some (some ⟨[⟨"S1", 1, x1, y1, "stairs", lab1, some "Zinadan o\x27ting"⟩,
                   ⟨"S2", 2, x2, y2, "stairs", lab2, some "Zinadan o\x27ting"⟩],
                  50, 1, 50 / 50⟩) ∧
    Store.findPathBetweenWaypoints (vertMinimalStore x1 y1 x2 y2 lab1 lab2 cf1 cf2 fl ro ki si)
        (fuel + 2) "S2" "S1" =
      some (some ⟨[⟨"S2", 2, x2, y2, "stairs", lab2, some "Zinadan o\x27ting"⟩,
                   ⟨"S1", 1, x1, y1, "stairs", lab1, some "Zinadan o\x27ting"⟩],
                  50, 1, 50 / 50⟩) := by
  rw [show fuel + 2 = fuel + 1 + 1 from rfl]
  refine ⟨?_, ?_, ?_, ?_⟩ <;>
    simp [Store.findPathBetweenWaypoints, Store.getAllWaypoints,
      Store.getAllConnections, Store.waypointMapOf, Store.buildAdj,
      Store.addConnection, Store.addVertical, Store.pushEdge, Store.heuristic,
      Store.astarLoop, Store.scanMin, Store.relaxNeighbor, Store.relaxUpdate,
      Store.reconstructPath, Store.walkBack, Store.countFloorChanges,
      Store.getInstruction, Store.phantomWaypoint, lookupA, setA, eraseA,
      vertMinimalStore, vertS1, vertS2]

/-! ## Claim C10 -/

/-- **C10.** `cleanupOrphans()` never modifies the `connects_to_floor` /
`connects_to_waypoint` fields of surviving waypoints (survivors are the
original rows), so after cleanup a stairs/elevator waypoint may still
reference a waypoint id `X` that no longer exists; the graph construction of
`findPathBetweenWaypoints` then inserts the bidirectional vertical edge of
cost 50 between the survivor and `X`, admitting `X` into the search space. -/
theorem cleanupOrphans_dangling_vertical_edge (s : Store) (w : Waypoint) (X : String)
    (hw : w ∈ (s.cleanupOrphans).waypoints)
    (htype : w.type = "stairs" ∨ w.type = "elevator")
    (hcts : w.connects_to_waypoint = some X) (hne : ¬ (X = ""))
    (hdangling : ∀ v ∈ (s.cleanupOrphans).waypoints, ¬ (v.id = X)) :
    w ∈ s.waypoints ∧
    (X, 50) ∈ (lookupA (Store.buildAdj (Store.getAllWaypoints s.cleanupOrphans)
        (Store.getAllConnections s.cleanupOrphans)) w.id).getD [] ∧
    (w.id, 50) ∈ (lookupA (Store.buildAdj (Store.getAllWaypoints s.cleanupOrphans)
        (Store.getAllConnections s.cleanupOrphans)) X).getD [] := by
  have h := buildAdj_vertical_mem (s.cleanupOrphans).waypoints
    (s.cleanupOrphans).connections w X hw htype hcts hne
  exact ⟨cleanupOrphans_waypoints_sub s w hw, h.1, h.2⟩

/-- Witness for C10 at the concrete store `c10Store`: the stairs waypoint
`W1` survives cleanup with its dangling link to `GONE` intact, and the graph
gets the vertical edge in both directions. -/
theorem cleanupOrphans_dangling_vertical_edge_witness :
    c10Waypoint ∈ c10Store.waypoints ∧
    ("GONE", 50) ∈ (lookupA (Store.buildAdj (Store.getAllWaypoints c10Store.cleanupOrphans)
        (Store.getAllConnections c10Store.cleanupOrphans)) c10Waypoint.id).getD [] ∧
    (c10Waypoint.id, 50) ∈ (lookupA (Store.buildAdj (Store.getAllWaypoints c10Store.cleanupOrphans)
        (Store.getAllConnections c10Store.cleanupOrphans)) "GONE").getD [] :=
  cleanupOrphans_dangling_vertical_edge c10Store c10Waypoint "GONE"
    (by simp [Store.cleanupOrphans, c10Store, c10Floor, c10Waypoint])
    (Or.inl rfl) rfl (by decide)
    (by simp [Store.cleanupOrphans, c10Store, c10Floor, c10Waypoint])

/-! ## Claim C8 -/

/-- **C8.** Three `upsertFloors` calls issued within one debounce window
(no timer fires in between) followed by one `flushSave()` produce exactly
one disk write — none during the three upserts, one synchronous write at the
flush — and that write is the final in-memory state containing the effects
of all three calls; `flushSave` also cancels the pending debounce timer. -/
theorem debounced_saves_coalesce (st : PersistState) (f1 f2 f3 : List Floor) :
    (((st.upsertFloorsP f1).upsertFloorsP f2).upsertFloorsP f3).diskWrites
        = st.diskWrites ∧
    ((((st.upsertFloorsP f1).upsertFloorsP f2).upsertFloorsP f3).flushSave).diskWrites
        = st.diskWrites + 1 ∧
    ((((st.upsertFloorsP f1).upsertFloorsP f2).upsertFloorsP f3).flushSave).disk
        = some (((st.mem.upsertFloors f1).upsertFloors f2).upsertFloors f3) ∧
    ((((st.upsertFloorsP f1).upsertFloorsP f2).upsertFloorsP f3).flushSave).timerPending
        = false := by
  simp [PersistState.upsertFloorsP, PersistState.save, PersistState.flushSave,
    PersistState.saveNow]

/-! ## Sync lemmas -/

theorem cleanupOrphans_syncInfo (s : Store) :
    (s.cleanupOrphans).syncInfo = s.syncInfo := rfl

theorem getSyncInfo_setSyncInfo (s : Store) (k v now : String) :
    (s.setSyncInfo k v now).getSyncInfo k = some v := by
  unfold Store.setSyncInfo Store.getSyncInfo
  simp only
  induction s.syncInfo with
  | nil => simp [List.find?]
  | cons r rest ih =>
    by_cases h : r.key = k
    · simpa [h] using ih
    · simpa [List.find?, h] using ih

/-! ## Claim C6 -/

/-- **C6.** `syncAll()` throws if and only if the initial reachability probe
fails (with the fixed `Server is not reachable` error); when the probe
succeeds, every individual resource failure is caught by its wrapper, so
`syncAll` returns normally — and still runs to completion, recording the
`last_sync` timestamp. -/
theorem syncAll_throws_iff_unreachable (hashData : Payload → String)
    (storageDir : String) (remote : Remote) (now : String) (st : SyncState) :
    ((∃ e, syncAll hashData storageDir remote now st = .error e) ↔
        remote.health = false) ∧
    (remote.health = true →
      ∃ st', syncAll hashData storageDir remote now st = .ok st' ∧
        st'.store.getSyncInfo "last_sync" = some now) := by
  unfold syncAll
  cases hh : remote.health
  · simp
  · simp only [hh, if_true]
    refine ⟨by simp, fun _ => ⟨_, rfl, ?_⟩⟩
    show ((((syncResources hashData storageDir remote st).store.setSyncInfo
      "last_sync" now now).cleanupOrphans).getSyncInfo "last_sync") = some now
    rw [show ∀ t : Store, (t.cleanupOrphans).getSyncInfo "last_sync"
        = t.getSyncInfo "last_sync" from fun t => rfl]
    exact getSyncInfo_setSyncInfo _ _ _ _

/-- Witness for C6 at concrete inputs: an unreachable remote makes `syncAll`
throw, and the reachable all-ok remote returns normally with `last_sync`
recorded. -/
theorem syncAll_throws_iff_unreachable_witness :
    ((∃ e, syncAll c9Hash "sd" c6OfflineRemote "t1" c9State = .error e) ↔
        c6OfflineRemote.health = false) ∧
    (c9Remote.health = true →
      ∃ st', syncAll c9Hash "sd" c9Remote "t1" c9State = .ok st' ∧
        st'.store.getSyncInfo "last_sync" = some "t1") :=
  ⟨(syncAll_throws_iff_unreachable c9Hash "sd" c6OfflineRemote "t1" c9State).1,
   (syncAll_throws_iff_unreachable c9Hash "sd" c9Remote "t1" c9State).2⟩

/-! ## Claim C9 -/

/-- **C9.** `hasChanged` records the new fingerprint in the in-memory cache
before the store write is attempted, so when the `clear+upsert` pair fails
after `hasChanged` returned `true`, the cache is poisoned: the store was
never updated, yet a later sync in the same process receiving the identical
remote payload sees a matching fingerprint and skips the write entirely. -/
theorem hasChanged_updates_cache_before_write (hashData : Payload → String)
    (remote : Remote) (st : SyncState) (d : List Floor)
    (hresp : remote.floorsResp = .ok d)
    (hmiss : ¬ lookupA st.dataHashes SyncKey.floors = some (hashData (.floors d))) :
    (syncFloorsWriteFailed hashData remote st).store = st.store ∧
    lookupA (syncFloorsWriteFailed hashData remote st).dataHashes SyncKey.floors =
      some (hashData (.floors d)) ∧
    syncFloors hashData remote (syncFloorsWriteFailed hashData remote st) =
      .ok (syncFloorsWriteFailed hashData remote st) := by
  unfold syncFloorsWriteFailed syncFloors
  rw [hresp]
  unfold hasChanged
  cases hl : lookupA st.dataHashes SyncKey.floors with
  | none => simp [lookupA_setA]
  | some oldHash =>
    have hne : ¬ (oldHash = hashData (.floors d)) := by
      intro h
      exact hmiss (by rw [hl, h])
    simp [hne, lookupA_setA]

/-- Witness for C9: on a fresh cache, the failed floors write still records
the fingerprint, and the retry against the identical payload skips. -/
theorem hasChanged_updates_cache_before_write_witness :
    (syncFloorsWriteFailed c9Hash c9Remote c9State).store = c9State.store ∧
    lookupA (syncFloorsWriteFailed c9Hash c9Remote c9State).dataHashes SyncKey.floors =
      some (c9Hash (.floors [c9Floor])) ∧
    syncFloors c9Hash c9Remote (syncFloorsWriteFailed c9Hash c9Remote c9State) =
      .ok (syncFloorsWriteFailed c9Hash c9Remote c9State) :=
  hasChanged_updates_cache_before_write c9Hash c9Remote c9State [c9Floor] rfl
    (by simp [c9State, lookupA])

/-! ## Claim C7 -/

/-- **C7.** On a `syncAll()` run whose probe and every resource request
succeed (full success), the run returns normally and its final state is the
resource phase's state with the `last_sync` timestamp recorded first and
`cleanupOrphans` applied only afterwards — i.e. cleanup runs after all
resource collections have been replaced, and the recorded `last_sync`
survives into the returned state. -/
theorem syncAll_full_success_completion (hashData : Payload → String)
    (storageDir : String) (remote : Remote) (now : String) (st : SyncState)
    (hh : remote.health = true)
    (hf : ∃ d, remote.floorsResp = .ok d)
    (hr : ∃ d, remote.roomsResp = .ok d)
    (hk : ∃ d, remote.kiosksResp = .ok d)
    (hw : ∀ i : Int, ∃ d, remote.waypointsResp i = .ok d)
    (hc : ∀ i : Int, ∃ d, remote.connectionsResp i = .ok d) :
    syncAll hashData storageDir remote now st =
      .ok { syncResources hashData storageDir remote st with
            store := ((syncResources hashData storageDir remote st).store.setSyncInfo
              "last_sync" now now).cleanupOrphans } ∧
    (∀ st', syncAll hashData storageDir remote now st = .ok st' →
        st'.store.getSyncInfo "last_sync" = some now) := by
  unfold syncAll
  rw [hh]
  refine ⟨by simp, fun st' h => ?_⟩
  simp only [if_true] at h
  cases h
  rw [show ∀ t : Store, (t.cleanupOrphans).getSyncInfo "last_sync"
      = t.getSyncInfo "last_sync" from fun t => rfl]
  exact getSyncInfo_setSyncInfo _ _ _ _

/-- Witness for C7 at the concrete all-ok remote. -/
theorem syncAll_full_success_completion_witness :
    syncAll c9Hash "sd" c9Remote "t1" c9State =
      .ok { syncResources c9Hash "sd" c9Remote c9State with
            store := ((syncResources c9Hash "sd" c9Remote c9State).store.setSyncInfo
              "last_sync" "t1" "t1").cleanupOrphans } ∧
    (∀ st', syncAll c9Hash "sd" c9Remote "t1" c9State = .ok st' →
        st'.store.getSyncInfo "last_sync" = some "t1") :=
  syncAll_full_success_completion c9Hash "sd" c9Remote "t1" c9State rfl
    ⟨[c9Floor], rfl⟩ ⟨[], rfl⟩ ⟨[], rfl⟩ (fun _ => ⟨[], rfl⟩) (fun _ => ⟨[], rfl⟩)

/-! ## hasChanged characterization -/

theorem hasChanged_hit (h : Payload → String) (st : SyncState) (k : SyncKey)
    (p : Payload) (hc : lookupA st.dataHashes k = some (h p)) :
    hasChanged h st k p = (false, st) := by
  unfold hasChanged
  rw [hc]
  simp

theorem hasChanged_miss (h : Payload → String) (st : SyncState) (k : SyncKey)
    (p : Payload) (hc : ¬ lookupA st.dataHashes k = some (h p)) :
    hasChanged h st k p =
      (true, { st with dataHashes := setA st.dataHashes k (h p) }) := by
  unfold hasChanged
  cases hl : lookupA st.dataHashes k with
  | none => simp
  | some old =>
    have hne : ¬ (old = h p) := fun he => hc (by rw [hl, he])
    simp [hne]

/-! ## Per-resource skip / write characterizations -/

theorem syncFloors_skip (h : Payload → String) (remote : Remote) (st : SyncState)
    (d : List Floor) (hresp : remote.floorsResp = .ok d)
    (hc : lookupA st.dataHashes SyncKey.floors = some (h (.floors d))) :
    syncFloors h remote st = .ok st := by
  unfold syncFloors
  rw [hresp]
  dsimp only
  rw [hasChanged_hit h st _ _ hc]
  simp

theorem syncFloors_write (h : Payload → String) (remote : Remote) (st : SyncState)
    (d : List Floor) (hresp : remote.floorsResp = .ok d)
    (hc : ¬ lookupA st.dataHashes SyncKey.floors = some (h (.floors d))) :
    syncFloors h remote st =
      .ok { st with dataHashes := setA st.dataHashes SyncKey.floors (h (.floors d)),
                    store := (st.store.clearFloors).upsertFloors d } := by
  unfold syncFloors
  rw [hresp]
  dsimp only
  rw [hasChanged_miss h st _ _ hc]
  simp

theorem syncRooms_skip (h : Payload → String) (remote : Remote) (st : SyncState)
    (d : List Room) (hresp : remote.roomsResp = .ok d)
    (hc : lookupA st.dataHashes SyncKey.rooms = some (h (.rooms d))) :
    syncRooms h remote st = .ok st := by
  unfold syncRooms
  rw [hresp]
  dsimp only
  rw [hasChanged_hit h st _ _ hc]
  simp

theorem syncRooms_write (h : Payload → String) (remote : Remote) (st : SyncState)
    (d : List Room) (hresp : remote.roomsResp = .ok d)
    (hc : ¬ lookupA st.dataHashes SyncKey.rooms = some (h (.rooms d))) :
    syncRooms h remote st =
      .ok { st with dataHashes := setA st.dataHashes SyncKey.rooms (h (.rooms d)),
                    store := (st.store.clearRooms).upsertRooms d } := by
  unfold syncRooms
  rw [hresp]
  dsimp only
  rw [hasChanged_miss h st _ _ hc]
  simp

theorem syncKiosks_skip (h : Payload → String) (remote : Remote) (st : SyncState)
    (d : List Kiosk) (hresp : remote.kiosksResp = .ok d)
    (hc : lookupA st.dataHashes SyncKey.kiosks = some (h (.kiosks d))) :
    syncKiosks h remote st = .ok st := by
  unfold syncKiosks
  rw [hresp]
  dsimp only
  rw [hasChanged_hit h st _ _ hc]
  simp

theorem syncKiosks_write (h : Payload → String) (remote : Remote) (st : SyncState)
    (d : List Kiosk) (hresp : remote.kiosksResp = .ok d)
    (hc : ¬ lookupA st.dataHashes SyncKey.kiosks = some (h (.kiosks d))) :
    syncKiosks h remote st =
      .ok { st with dataHashes := setA st.dataHashes SyncKey.kiosks (h (.kiosks d)),
                    store := (st.store.clearKiosks).upsertKiosks d } := by
  unfold syncKiosks
  rw [hresp]
  dsimp only
  rw [hasChanged_miss h st _ _ hc]
  simp

theorem syncWaypointsForFloor_skip (h : Payload → String) (remote : Remote)
    (i : Int) (st : SyncState) (d : List Waypoint)
    (hresp : remote.waypointsResp i = .ok d)
    (hc : lookupA st.dataHashes (SyncKey.waypoints i) = some (h (.waypoints d))) :
    syncWaypointsForFloor h remote i st = .ok st := by
  unfold syncWaypointsForFloor
  rw [hresp]
  dsimp only
  rw [hasChanged_hit h st _ _ hc]
  simp

theorem syncWaypointsForFloor_write (h : Payload → String) (remote : Remote)
    (i : Int) (st : SyncState) (d : List Waypoint)
    (hresp : remote.waypointsResp i = .ok d)
    (hc : ¬ lookupA st.dataHashes (SyncKey.waypoints i) = some (h (.waypoints d))) :
    syncWaypointsForFloor h remote i st =
      .ok { st with dataHashes := setA st.dataHashes (SyncKey.waypoints i) (h (.waypoints d)),
                    store := (st.store.clearWaypointsByFloor i).upsertWaypoints d } := by
  unfold syncWaypointsForFloor
  rw [hresp]
  dsimp only
  rw [hasChanged_miss h st _ _ hc]
  simp

theorem syncConnectionsForFloor_skip (h : Payload → String) (remote : Remote)
    (i : Int) (st : SyncState) (d : List Connection)
    (hresp : remote.connectionsResp i = .ok d)
    (hc : lookupA st.dataHashes (SyncKey.connections i) = some (h (.connections d))) :
    syncConnectionsForFloor h remote i st = .ok st := by
  unfold syncConnectionsForFloor
  rw [hresp]
  dsimp only
  rw [hasChanged_hit h st _ _ hc]
  simp

theorem syncConnectionsForFloor_write (h : Payload → String) (remote : Remote)
    (i : Int) (st : SyncState) (d : List Connection)
    (hresp : remote.connectionsResp i = .ok d)
    (hc : ¬ lookupA st.dataHashes (SyncKey.connections i) = some (h (.connections d))) :
    syncConnectionsForFloor h remote i st =
      .ok { st with dataHashes := setA st.dataHashes (SyncKey.connections i) (h (.connections d)),
                    store := (st.store.clearConnectionsByFloor i).upsertConnections d } := by
  unfold syncConnectionsForFloor
  rw [hresp]
  dsimp only
  rw [hasChanged_miss h st _ _ hc]
  simp

/-! ## attemptSync case analyses -/

theorem syncFloors_attempt_cases (h : Payload → String) (remote : Remote) (st : SyncState) :
    attemptSync (syncFloors h remote) st = st ∨
    (∃ d, remote.floorsResp = .ok d ∧
      attemptSync (syncFloors h remote) st =
        { st with dataHashes := setA st.dataHashes SyncKey.floors (h (.floors d)),
                  store := (st.store.clearFloors).upsertFloors d }) := by
  cases hresp : remote.floorsResp with
  | error e =>
    left
    unfold attemptSync syncFloors
    rw [hresp]
  | ok d =>
    by_cases hc : lookupA st.dataHashes SyncKey.floors = some (h (.floors d))
    · left; unfold attemptSync; rw [syncFloors_skip h remote st d hresp hc]
    · right
      exact ⟨d, rfl, by unfold attemptSync; rw [syncFloors_write h remote st d hresp hc]⟩

theorem syncRooms_attempt_cases (h : Payload → String) (remote : Remote) (st : SyncState) :
    attemptSync (syncRooms h remote) st = st ∨
    (∃ d, remote.roomsResp = .ok d ∧
      attemptSync (syncRooms h remote) st =
        { st with dataHashes := setA st.dataHashes SyncKey.rooms (h (.rooms d)),
                  store := (st.store.clearRooms).upsertRooms d }) := by
  cases hresp : remote.roomsResp with
  | error e =>
    left
    unfold attemptSync syncRooms
    rw [hresp]
  | ok d =>
    by_cases hc : lookupA st.dataHashes SyncKey.rooms = some (h (.rooms d))
    · left; unfold attemptSync; rw [syncRooms_skip h remote st d hresp hc]
    · right
      exact ⟨d, rfl, by unfold attemptSync; rw [syncRooms_write h remote st d hresp hc]⟩

theorem syncKiosks_attempt_cases (h : Payload → String) (remote : Remote) (st : SyncState) :
    attemptSync (syncKiosks h remote) st = st ∨
    (∃ d, remote.kiosksResp = .ok d ∧
      attemptSync (syncKiosks h remote) st =
        { st with dataHashes := setA st.dataHashes SyncKey.kiosks (h (.kiosks d)),
                  store := (st.store.clearKiosks).upsertKiosks d }) := by
  cases hresp : remote.kiosksResp with
  | error e =>
    left
    unfold attemptSync syncKiosks
    rw [hresp]
  | ok d =>
    by_cases hc : lookupA st.dataHashes SyncKey.kiosks = some (h (.kiosks d))
    · left; unfold attemptSync; rw [syncKiosks_skip h remote st d hresp hc]
    · right
      exact ⟨d, rfl, by unfold attemptSync; rw [syncKiosks_write h remote st d hresp hc]⟩

theorem syncWaypointsForFloor_attempt_cases (h : Payload → String) (remote : Remote)
    (i : Int) (st : SyncState) :
    attemptSync (syncWaypointsForFloor h remote i) st = st ∨
    (∃ d, remote.waypointsResp i = .ok d ∧
      attemptSync (syncWaypointsForFloor h remote i) st =
        { st with dataHashes := setA st.dataHashes (SyncKey.waypoints i) (h (.waypoints d)),
                  store := (st.store.clearWaypointsByFloor i).upsertWaypoints d }) := by
  cases hresp : remote.waypointsResp i with
  | error e =>
    left
    unfold attemptSync syncWaypointsForFloor
    rw [hresp]
  | ok d =>
    by_cases hc : lookupA st.dataHashes (SyncKey.waypoints i) = some (h (.waypoints d))
    · left; unfold attemptSync; rw [syncWaypointsForFloor_skip h remote i st d hresp hc]
    · right
      exact ⟨d, rfl, by
        unfold attemptSync; rw [syncWaypointsForFloor_write h remote i st d hresp hc]⟩

theorem syncConnectionsForFloor_attempt_cases (h : Payload → String) (remote : Remote)
    (i : Int) (st : SyncState) :
    attemptSync (syncConnectionsForFloor h remote i) st = st ∨
    (∃ d, remote.connectionsResp i = .ok d ∧
      attemptSync (syncConnectionsForFloor h remote i) st =
        { st with dataHashes := setA st.dataHashes (SyncKey.connections i) (h (.connections d)),
                  store := (st.store.clearConnectionsByFloor i).upsertConnections d }) := by
  cases hresp : remote.connectionsResp i with
  | error e =>
    left
    unfold attemptSync syncConnectionsForFloor
    rw [hresp]
  | ok d =>
    by_cases hc : lookupA st.dataHashes (SyncKey.connections i) = some (h (.connections d))
    · left; unfold attemptSync; rw [syncConnectionsForFloor_skip h remote i st d hresp hc]
    · right
      exact ⟨d, rfl, by
        unfold attemptSync; rw [syncConnectionsForFloor_write h remote i st d hresp hc]⟩

/-! ## Cache facts after each attempted resource sync -/

theorem syncFloors_attempt_cache (h : Payload → String) (remote : Remote)
    (st : SyncState) (d : List Floor) (hresp : remote.floorsResp = .ok d) :
    lookupA (attemptSync (syncFloors h remote) st).dataHashes SyncKey.floors
      = some (h (.floors d)) := by
  by_cases hc : lookupA st.dataHashes SyncKey.floors = some (h (.floors d))
  · unfold attemptSync
    rw [syncFloors_skip h remote st d hresp hc]
    exact hc
  · unfold attemptSync
    rw [syncFloors_write h remote st d hresp hc]
    simp [lookupA_setA]

theorem syncRooms_attempt_cache (h : Payload → String) (remote : Remote)
    (st : SyncState) (d : List Room) (hresp : remote.roomsResp = .ok d) :
    lookupA (attemptSync (syncRooms h remote) st).dataHashes SyncKey.rooms
      = some (h (.rooms d)) := by
  by_cases hc : lookupA st.dataHashes SyncKey.rooms = some (h (.rooms d))
  · unfold attemptSync
    rw [syncRooms_skip h remote st d hresp hc]
    exact hc
  · unfold attemptSync
    rw [syncRooms_write h remote st d hresp hc]
    simp [lookupA_setA]

theorem syncKiosks_attempt_cache (h : Payload → String) (remote : Remote)
    (st : SyncState) (d : List Kiosk) (hresp : remote.kiosksResp = .ok d) :
    lookupA (attemptSync (syncKiosks h remote) st).dataHashes SyncKey.kiosks
      = some (h (.kiosks d)) := by
  by_cases hc : lookupA st.dataHashes SyncKey.kiosks = some (h (.kiosks d))
  · unfold attemptSync
    rw [syncKiosks_skip h remote st d hresp hc]
    exact hc
  · unfold attemptSync
    rw [syncKiosks_write h remote st d hresp hc]
    simp [lookupA_setA]

theorem syncWaypointsForFloor_attempt_cache (h : Payload → String) (remote : Remote)
    (i : Int) (st : SyncState) (d : List Waypoint)
    (hresp : remote.waypointsResp i = .ok d) :
    lookupA (attemptSync (syncWaypointsForFloor h remote i) st).dataHashes
      (SyncKey.waypoints i) = some (h (.waypoints d)) := by
  by_cases hc : lookupA st.dataHashes (SyncKey.waypoints i) = some (h (.waypoints d))
  · unfold attemptSync
    rw [syncWaypointsForFloor_skip h remote i st d hresp hc]
    exact hc
  · unfold attemptSync
    rw [syncWaypointsForFloor_write h remote i st d hresp hc]
    simp [lookupA_setA]

theorem syncConnectionsForFloor_attempt_cache (h : Payload → String) (remote : Remote)
    (i : Int) (st : SyncState) (d : List Connection)
    (hresp : remote.connectionsResp i = .ok d) :
    lookupA (attemptSync (syncConnectionsForFloor h remote i) st).dataHashes
      (SyncKey.connections i) = some (h (.connections d)) := by
  by_cases hc : lookupA st.dataHashes (SyncKey.connections i) = some (h (.connections d))
  · unfold attemptSync
    rw [syncConnectionsForFloor_skip h remote i st d hresp hc]
    exact hc
  · unfold attemptSync
    rw [syncConnectionsForFloor_write h remote i st d hresp hc]
    simp [lookupA_setA]

/-! ## Cache frame (other keys) for each attempted resource sync -/

theorem syncFloors_attempt_key_frame (h : Payload → String) (remote : Remote)
    (st : SyncState) (k : SyncKey) (hk : ¬ k = SyncKey.floors) :
    lookupA (attemptSync (syncFloors h remote) st).dataHashes k
      = lookupA st.dataHashes k := by
  rcases syncFloors_attempt_cases h remote st with heq | ⟨d, _, heq⟩
  · rw [heq]
  · rw [heq]
    simp only [lookupA_setA]
    exact if_neg (fun hh => hk hh.symm)

theorem syncRooms_attempt_key_frame (h : Payload → String) (remote : Remote)
    (st : SyncState) (k : SyncKey) (hk : ¬ k = SyncKey.rooms) :
    lookupA (attemptSync (syncRooms h remote) st).dataHashes k
      = lookupA st.dataHashes k := by
  rcases syncRooms_attempt_cases h remote st with heq | ⟨d, _, heq⟩
  · rw [heq]
  · rw [heq]
    simp only [lookupA_setA]
    exact if_neg (fun hh => hk hh.symm)

theorem syncKiosks_attempt_key_frame (h : Payload → String) (remote : Remote)
    (st : SyncState) (k : SyncKey) (hk : ¬ k = SyncKey.kiosks) :
    lookupA (attemptSync (syncKiosks h remote) st).dataHashes k
      = lookupA st.dataHashes k := by
  rcases syncKiosks_attempt_cases h remote st with heq | ⟨d, _, heq⟩
  · rw [heq]
  · rw [heq]
    simp only [lookupA_setA]
    exact if_neg (fun hh => hk hh.symm)

theorem syncWaypointsForFloor_attempt_key_frame (h : Payload → String) (remote : Remote)
    (i : Int) (st : SyncState) (k : SyncKey) (hk : ¬ k = SyncKey.waypoints i) :
    lookupA (attemptSync (syncWaypointsForFloor h remote i) st).dataHashes k
      = lookupA st.dataHashes k := by
  rcases syncWaypointsForFloor_attempt_cases h remote i st with heq | ⟨d, _, heq⟩
  · rw [heq]
  · rw [heq]
    simp only [lookupA_setA]
    exact if_neg (fun hh => hk hh.symm)

theorem syncConnectionsForFloor_attempt_key_frame (h : Payload → String) (remote : Remote)
    (i : Int) (st : SyncState) (k : SyncKey) (hk : ¬ k = SyncKey.connections i) :
    lookupA (attemptSync (syncConnectionsForFloor h remote i) st).dataHashes k
      = lookupA st.dataHashes k := by
  rcases syncConnectionsForFloor_attempt_cases h remote i st with heq | ⟨d, _, heq⟩
  · rw [heq]
  · rw [heq]
    simp only [lookupA_setA]
    exact if_neg (fun hh => hk hh.symm)

/-! ## Primary-key (nodup id) preservation -/

theorem replaceFloor_ids_nodup (L : List Floor) (f : Floor)
    (h : (L.map Floor.id).Nodup) : ((Store.replaceFloor L f).map Floor.id).Nodup := by
  unfold Store.replaceFloor
  rw [List.map_append]
  refine List.Nodup.append ?_ (by simp) ?_
  · exact List.Nodup.sublist ((List.filter_sublist L).map Floor.id) h
  · intro a ha hb
    simp only [List.map_cons, List.map_nil, List.mem_singleton] at hb
    subst hb
    simp only [List.mem_map, List.mem_filter, decide_eq_true_eq] at ha
    obtain ⟨g, ⟨_, hgne⟩, hgid⟩ := ha
    exact hgne hgid

theorem upsertFloors_ids_nodup (d : List Floor) :
    ∀ L : List Floor, (L.map Floor.id).Nodup →
      ((d.foldl Store.replaceFloor L).map Floor.id).Nodup := by
  induction d with
  | nil => exact fun L h => h
  | cons f rest ih => exact fun L h => ih _ (replaceFloor_ids_nodup L f h)

/-! ## `getFloors` is a permutation of the floors table -/

theorem insertByNumber_perm (f : Floor) (l : List Floor) :
    (Store.insertByNumber f l).Perm (f :: l) := by
  induction l with
  | nil => exact List.Perm.refl _
  | cons g rest ih =>
    unfold Store.insertByNumber
    by_cases hc : f.floor_number < g.floor_number
    · rw [if_pos hc]
    · rw [if_neg hc]
      exact (ih.cons g).trans (List.Perm.swap f g rest)

theorem sortFloors_perm (l : List Floor) :
    (l.foldr Store.insertByNumber []).Perm l := by
  induction l with
  | nil => exact List.Perm.refl _
  | cons f rest ih => exact (insertByNumber_perm f _).trans (ih.cons f)

theorem getFloors_perm (s : Store) : (s.getFloors).Perm s.floors :=
  sortFloors_perm s.floors

theorem mem_getFloors (s : Store) (f : Floor) : f ∈ s.getFloors ↔ f ∈ s.floors :=
  (getFloors_perm s).mem_iff

theorem getFloors_ids_nodup (s : Store) (h : (s.floors.map Floor.id).Nodup) :
    ((s.getFloors).map Floor.id).Nodup :=
  (((getFloors_perm s).map Floor.id).nodup_iff).mpr h

/-! ## `setFloorLocalImagePath` row lemmas -/

theorem setFloorLocalImagePath_shape (s : Store) (i : Int) (p : Option String) :
    (s.setFloorLocalImagePath i p).floors.map (fun r => (r.id, r.image_url))
      = s.floors.map (fun r => (r.id, r.image_url)) := by
  unfold Store.setFloorLocalImagePath
  simp only [List.map_map]
  apply List.map_congr_left
  intro r _
  by_cases hr : r.id = i <;> simp [Function.comp, hr]

theorem setFloorLocalImagePath_mem_other (s : Store) (i : Int) (p : Option String)
    (r : Floor) (hr : r ∈ s.floors) (hne : ¬ (r.id = i)) :
    r ∈ (s.setFloorLocalImagePath i p).floors := by
  unfold Store.setFloorLocalImagePath
  simp only [List.mem_map]
  exact ⟨r, hr, by simp [hne]⟩

theorem setFloorLocalImagePath_mem_set (s : Store) (i : Int) (p : Option String)
    (r : Floor) (hr : r ∈ s.floors) (heq : r.id = i) :
    { r with local_image_path := p } ∈ (s.setFloorLocalImagePath i p).floors := by
  unfold Store.setFloorLocalImagePath
  simp only [List.mem_map]
  exact ⟨r, hr, by simp [heq]⟩

theorem setFloorLocalImagePath_rows (s : Store) (i : Int) (p : Option String)
    (r : Floor) (hr : r ∈ (s.setFloorLocalImagePath i p).floors) (hid : r.id = i) :
    r.local_image_path = p := by
  unfold Store.setFloorLocalImagePath at hr
  simp only [List.mem_map] at hr
  obtain ⟨r0, _, heq⟩ := hr
  by_cases h0 : r0.id = i
  · rw [if_pos h0] at heq
    rw [← heq]
  · rw [if_neg h0] at heq
    subst heq
    exact absurd hid h0

theorem setFloorLocalImagePath_self (s : Store) (i : Int) (p : Option String)
    (hex : ∀ r ∈ s.floors, r.id = i → r.local_image_path = p) :
    s.setFloorLocalImagePath i p = s := by
  have hmap : s.floors.map
      (fun f => if f.id = i then { f with local_image_path := p } else f) = s.floors := by
    conv_rhs => rw [← List.map_id s.floors]
    apply List.map_congr_left
    intro r hr
    by_cases h0 : r.id = i
    · rw [if_pos h0, ← hex r hr h0]
      rfl
    · rw [if_neg h0]
      rfl
  unfold Store.setFloorLocalImagePath
  rw [hmap]

/-! ## Floor-row shape helpers -/

theorem ids_of_shape {A B : List Floor}
    (hsh : A.map (fun r => (r.id, r.image_url)) = B.map (fun r => (r.id, r.image_url))) :
    A.map Floor.id = B.map Floor.id := by
  have h := congrArg (List.map Prod.fst) hsh
  simpa [List.map_map, Function.comp] using h

theorem exists_row_of_shape {A B : List Floor}
    (hsh : A.map (fun r => (r.id, r.image_url)) = B.map (fun r => (r.id, r.image_url)))
    (i : Int) (u : Option String)
    (hex : ∃ r ∈ B, r.id = i ∧ r.image_url = u) :
    ∃ r ∈ A, r.id = i ∧ r.image_url = u := by
  obtain ⟨r, hrB, hid, hurl⟩ := hex
  have hm : (i, u) ∈ A.map (fun r => (r.id, r.image_url)) := by
    rw [hsh]
    exact List.mem_map.mpr ⟨r, hrB, by rw [hid, hurl]⟩
  obtain ⟨r', hr'A, hpair⟩ := List.mem_map.mp hm
  rw [Prod.mk.injEq] at hpair
  exact ⟨r', hr'A, hpair.1, hpair.2⟩

/-! ## One step of `syncFloorImages` -/

theorem syncFloorImage_cases (dir : String) (remote : Remote) (st : SyncState) (f : Floor) :
    syncFloorImage dir remote st f = st ∨
    (∃ url, f.image_url = some url ∧ ¬ (url = "") ∧
      ((imageFileFor f.id url ∈ st.files ∧
        syncFloorImage dir remote st f =
          { st with store := (st.store.setFloorLocalImagePath f.id
              (some (renderImagePath dir (imageFileFor f.id url)))) }) ∨
       (¬ (imageFileFor f.id url ∈ st.files) ∧
        (∃ u, remote.imageResp (resolveImageUrl remote.baseUrl url) = .ok u) ∧
        syncFloorImage dir remote st f =
          { st with files := imageFileFor f.id url :: st.files,
                    store := (st.store.setFloorLocalImagePath f.id
                      (some (renderImagePath dir (imageFileFor f.id url)))) }) ∨
       (¬ (imageFileFor f.id url ∈ st.files) ∧
        (∃ e, remote.imageResp (resolveImageUrl remote.baseUrl url) = .error e) ∧
        syncFloorImage dir remote st f = st))) := by
  unfold syncFloorImage
  cases hu : f.image_url with
  | none => exact Or.inl rfl
  | some url =>
    dsimp only
    by_cases he : url = ""
    · rw [if_pos he]
      exact Or.inl rfl
    · rw [if_neg he]
      by_cases hm : imageFileFor f.id url ∈ st.files
      · rw [if_pos hm]
        exact Or.inr ⟨url, rfl, he, Or.inl ⟨hm, rfl⟩⟩
      · rw [if_neg hm]
        cases hr : remote.imageResp (resolveImageUrl remote.baseUrl url) with
        | ok u => exact Or.inr ⟨url, rfl, he, Or.inr (Or.inl ⟨hm, ⟨u, hr⟩, rfl⟩)⟩
        | error e => exact Or.inr ⟨url, rfl, he, Or.inr (Or.inr ⟨hm, ⟨e, hr⟩, rfl⟩)⟩

theorem imageFileFor_floorId (i : Int) (u : String) : (imageFileFor i u).floorId = i := rfl

theorem syncFloorImage_cases_truthy (dir : String) (remote : Remote) (st : SyncState)
    (g : Floor) (url : String) (hurl : g.image_url = some url) (hne : ¬ (url = "")) :
    (imageFileFor g.id url ∈ st.files ∧
      syncFloorImage dir remote st g =
        { st with store := (st.store.setFloorLocalImagePath g.id
            (some (renderImagePath dir (imageFileFor g.id url)))) }) ∨
    (¬ (imageFileFor g.id url ∈ st.files) ∧
      (∃ u, remote.imageResp (resolveImageUrl remote.baseUrl url) = .ok u) ∧
      syncFloorImage dir remote st g =
        { st with files := imageFileFor g.id url :: st.files,
                  store := (st.store.setFloorLocalImagePath g.id
                    (some (renderImagePath dir (imageFileFor g.id url)))) }) ∨
    (¬ (imageFileFor g.id url ∈ st.files) ∧
      (∃ e, remote.imageResp (resolveImageUrl remote.baseUrl url) = .error e) ∧
      syncFloorImage dir remote st g = st) := by
  unfold syncFloorImage
  rw [hurl]
  dsimp only
  rw [if_neg hne]
  by_cases hm : imageFileFor g.id url ∈ st.files
  · rw [if_pos hm]
    exact Or.inl ⟨hm, rfl⟩
  · rw [if_neg hm]
    cases hr : remote.imageResp (resolveImageUrl remote.baseUrl url) with
    | ok u => exact Or.inr (Or.inl ⟨hm, ⟨u, rfl⟩, rfl⟩)
    | error e => exact Or.inr (Or.inr ⟨hm, ⟨e, rfl⟩, rfl⟩)

/-- Frame of one image step: floor-row identities and urls, the other
tables, and the cache are untouched; files only grow, and only by this
floor's file. -/
theorem syncFloorImage_frame (dir : String) (remote : Remote) (st : SyncState) (f : Floor) :
    (syncFloorImage dir remote st f).store.floors.map (fun r => (r.id, r.image_url))
        = st.store.floors.map (fun r => (r.id, r.image_url)) ∧
    (syncFloorImage dir remote st f).store.waypoints = st.store.waypoints ∧
    (syncFloorImage dir remote st f).store.connections = st.store.connections ∧
    (syncFloorImage dir remote st f).store.rooms = st.store.rooms ∧
    (syncFloorImage dir remote st f).store.kiosks = st.store.kiosks ∧
    (syncFloorImage dir remote st f).store.syncInfo = st.store.syncInfo ∧
    (syncFloorImage dir remote st f).dataHashes = st.dataHashes ∧
    (∀ p ∈ st.files, p ∈ (syncFloorImage dir remote st f).files) ∧
    (∀ p ∈ (syncFloorImage dir remote st f).files, p ∈ st.files ∨ p.floorId = f.id) := by
  rcases syncFloorImage_cases dir remote st f with h | ⟨url, hu, hne, h⟩
  · rw [h]
    exact ⟨rfl, rfl, rfl, rfl, rfl, rfl, rfl, fun p hp => hp, fun p hp => Or.inl hp⟩
  · rcases h with ⟨hm, heq⟩ | ⟨hm, hok, heq⟩ | ⟨hm, herr, heq⟩ <;> rw [heq]
    · exact ⟨setFloorLocalImagePath_shape _ _ _, rfl, rfl, rfl, rfl, rfl, rfl,
        fun p hp => hp, fun p hp => Or.inl hp⟩
    · refine ⟨setFloorLocalImagePath_shape _ _ _, rfl, rfl, rfl, rfl, rfl, rfl,
        fun p hp => List.mem_cons_of_mem _ hp, fun p hp => ?_⟩
      rcases List.mem_cons.mp hp with h' | h'
      · right
        rw [h']
        exact imageFileFor_floorId _ _
      · exact Or.inl h'
    · exact ⟨rfl, rfl, rfl, rfl, rfl, rfl, rfl, fun p hp => hp, fun p hp => Or.inl hp⟩

/-- Frame of the image fold over a floor list. -/
theorem imagesFold_frame (dir : String) (remote : Remote) :
    ∀ (l : List Floor) (st : SyncState),
      (l.foldl (syncFloorImage dir remote) st).store.floors.map (fun r => (r.id, r.image_url))
          = st.store.floors.map (fun r => (r.id, r.image_url)) ∧
      (l.foldl (syncFloorImage dir remote) st).store.waypoints = st.store.waypoints ∧
      (l.foldl (syncFloorImage dir remote) st).store.connections = st.store.connections ∧
      (l.foldl (syncFloorImage dir remote) st).store.rooms = st.store.rooms ∧
      (l.foldl (syncFloorImage dir remote) st).store.kiosks = st.store.kiosks ∧
      (l.foldl (syncFloorImage dir remote) st).store.syncInfo = st.store.syncInfo ∧
      (l.foldl (syncFloorImage dir remote) st).dataHashes = st.dataHashes ∧
      (∀ p ∈ st.files, p ∈ (l.foldl (syncFloorImage dir remote) st).files) ∧
      (∀ p ∈ (l.foldl (syncFloorImage dir remote) st).files,
        p ∈ st.files ∨ p.floorId ∈ l.map Floor.id) := by
  intro l
  induction l with
  | nil =>
    intro st
    exact ⟨rfl, rfl, rfl, rfl, rfl, rfl, rfl, fun p hp => hp, fun p hp => Or.inl hp⟩
  | cons f rest ih =>
    intro st
    have hs := syncFloorImage_frame dir remote st f
    have hr := ih (syncFloorImage dir remote st f)
    refine ⟨hr.1.trans hs.1, hr.2.1.trans hs.2.1, hr.2.2.1.trans hs.2.2.1,
      hr.2.2.2.1.trans hs.2.2.2.1, hr.2.2.2.2.1.trans hs.2.2.2.2.1,
      hr.2.2.2.2.2.1.trans hs.2.2.2.2.2.1, hr.2.2.2.2.2.2.1.trans hs.2.2.2.2.2.2.1,
      fun p hp => hr.2.2.2.2.2.2.2.1 p (hs.2.2.2.2.2.2.2.1 p hp), fun p hp => ?_⟩
    rcases hr.2.2.2.2.2.2.2.2 p hp with h' | h'
    · rcases hs.2.2.2.2.2.2.2.2 p h' with h'' | h''
      · exact Or.inl h''
      · right
        rw [List.map_cons, h'']
        exact List.mem_cons_self _ _
    · right
      rw [List.map_cons]
      exact List.mem_cons_of_mem _ h'

/-- Rows whose id is not in the processed list survive the image fold
untouched. -/
theorem imagesFold_mem_other (dir : String) (remote : Remote) :
    ∀ (l : List Floor) (st : SyncState) (r : Floor),
      r ∈ st.store.floors → r.id ∉ l.map Floor.id →
      r ∈ (l.foldl (syncFloorImage dir remote) st).store.floors := by
  intro l
  induction l with
  | nil => exact fun st r hr _ => hr
  | cons f rest ih =>
    intro st r hr hni
    simp only [List.map_cons, List.mem_cons, not_or] at hni
    have h1 : r ∈ (syncFloorImage dir remote st f).store.floors := by
      rcases syncFloorImage_cases dir remote st f with h | ⟨url, hu, hne, h⟩
      · rw [h]; exact hr
      · rcases h with ⟨hm, heq⟩ | ⟨hm, hok, heq⟩ | ⟨hm, herr, heq⟩ <;> rw [heq]
        · exact setFloorLocalImagePath_mem_other _ _ _ r hr hni.1
        · exact setFloorLocalImagePath_mem_other _ _ _ r hr hni.1
        · exact hr
    exact ih _ r h1 hni.2

/-- After the image fold, every processed floor's surviving row satisfies
the `ImagesOk` clause. -/
theorem imagesFold_clause (dir : String) (remote : Remote) :
    ∀ (l : List Floor) (st : SyncState),
      (st.store.floors.map Floor.id).Nodup →
      (∀ f ∈ l, ∃ r ∈ st.store.floors, r.id = f.id ∧ r.image_url = f.image_url) →
      (l.map Floor.id).Nodup →
      ∀ f ∈ l, ∀ url, f.image_url = some url → ¬ (url = "") →
        ∀ r ∈ (l.foldl (syncFloorImage dir remote) st).store.floors, r.id = f.id →
          (imageFileFor f.id url ∈ (l.foldl (syncFloorImage dir remote) st).files ∧
            r.local_image_path = some (renderImagePath dir (imageFileFor f.id url))) ∨
          (¬ (imageFileFor f.id url ∈ (l.foldl (syncFloorImage dir remote) st).files) ∧
            ∃ e, remote.imageResp (resolveImageUrl remote.baseUrl url) = .error e) := by
  intro l
  induction l with
  | nil => intro st _ _ _ f hf; cases hf
  | cons g rest ih =>
    intro st hnd hrows hlnd f hf url hurl hne r hrres hrid
    simp only [List.map_cons, List.nodup_cons] at hlnd
    have hstep := syncFloorImage_frame dir remote st g
    have hrest := imagesFold_frame dir remote rest (syncFloorImage dir remote st g)
    have hnd1 : ((syncFloorImage dir remote st g).store.floors.map Floor.id).Nodup := by
      rwa [ids_of_shape hstep.1]
    have hndres :
        (((rest.foldl (syncFloorImage dir remote) (syncFloorImage dir remote st g)).store.floors).map
          Floor.id).Nodup := by
      rw [ids_of_shape hrest.1]
      exact hnd1
    rcases List.mem_cons.mp hf with hfg | hfr
    · subst hfg
      rcases syncFloorImage_cases_truthy dir remote st f url hurl hne with
        ⟨hm, heq⟩ | ⟨hm, hok, heq⟩ | ⟨hm, herr, heq⟩
      · -- file already present: the row is set, the file persists
        left
        obtain ⟨r0, hr0, hr0id, hr0url⟩ := hrows f (List.mem_cons_self _ _)
        have hr1 : { r0 with local_image_path := some (renderImagePath dir (imageFileFor f.id url)) } ∈
            (syncFloorImage dir remote st f).store.floors := by
          rw [heq]
          exact setFloorLocalImagePath_mem_set _ _ _ r0 hr0 hr0id
        have hr1res : { r0 with local_image_path := some (renderImagePath dir (imageFileFor f.id url)) } ∈
            (rest.foldl (syncFloorImage dir remote) (syncFloorImage dir remote st f)).store.floors :=
          imagesFold_mem_other dir remote rest _ _ hr1 (by simpa [hr0id] using hlnd.1)
        have hreq : r = { r0 with local_image_path := some (renderImagePath dir (imageFileFor f.id url)) } := by
          exact List.inj_on_of_nodup_map hndres hrres hr1res (by simp [hrid, hr0id])
        constructor
        · apply hrest.2.2.2.2.2.2.2.1
          rw [heq]
          exact hm
        · rw [hreq]
      · -- downloaded now: the file is added, the row is set
        left
        obtain ⟨r0, hr0, hr0id, hr0url⟩ := hrows f (List.mem_cons_self _ _)
        have hr1 : { r0 with local_image_path := some (renderImagePath dir (imageFileFor f.id url)) } ∈
            (syncFloorImage dir remote st f).store.floors := by
          rw [heq]
          exact setFloorLocalImagePath_mem_set _ _ _ r0 hr0 hr0id
        have hr1res : { r0 with local_image_path := some (renderImagePath dir (imageFileFor f.id url)) } ∈
            (rest.foldl (syncFloorImage dir remote) (syncFloorImage dir remote st f)).store.floors :=
          imagesFold_mem_other dir remote rest _ _ hr1 (by simpa [hr0id] using hlnd.1)
        have hreq : r = { r0 with local_image_path := some (renderImagePath dir (imageFileFor f.id url)) } := by
          exact List.inj_on_of_nodup_map hndres hrres hr1res (by simp [hrid, hr0id])
        constructor
        · apply hrest.2.2.2.2.2.2.2.1
          rw [heq]
          exact List.mem_cons_self _ _
        · rw [hreq]
      · -- download fails: the file stays absent
        right
        refine ⟨?_, herr⟩
        intro hmem
        rcases hrest.2.2.2.2.2.2.2.2 _ hmem with h' | h'
        · rw [heq] at h'
          exact hm h'
        · rw [imageFileFor_floorId] at h'
          exact hlnd.1 (by simpa using h')
    · -- f is processed later: apply the induction hypothesis from the stepped state
      have hrows1 : ∀ f' ∈ rest, ∃ r' ∈ (syncFloorImage dir remote st g).store.floors,
          r'.id = f'.id ∧ r'.image_url = f'.image_url := by
        intro f' hf'
        exact exists_row_of_shape hstep.1 f'.id f'.image_url
          (hrows f' (List.mem_cons_of_mem _ hf'))
      exact ih (syncFloorImage dir remote st g) hnd1 hrows1 hlnd.2 f hfr url hurl hne
        r hrres hrid

/-- `syncFloorImages` establishes `ImagesOk` for stores with primary-key
floors. -/
theorem syncFloorImages_establishes (dir : String) (remote : Remote) (st : SyncState)
    (hnd : (st.store.floors.map Floor.id).Nodup) :
    ImagesOk dir remote (syncFloorImages dir remote st) := by
  unfold syncFloorImages
  by_cases hnil : st.store.getFloors = []
  · rw [if_pos hnil]
    intro r hr url _ _
    have hfl : st.store.floors = [] :=
      List.Perm.eq_nil ((hnil ▸ (getFloors_perm st.store).symm : st.store.floors.Perm []))
    rw [hfl] at hr
    cases hr
  · rw [if_neg hnil]
    intro r hrres url hurl hne
    have hframe := imagesFold_frame dir remote (st.store.getFloors) st
    have hex : ∃ r0 ∈ st.store.floors, r0.id = r.id ∧ r0.image_url = r.image_url :=
      exists_row_of_shape hframe.1.symm r.id r.image_url ⟨r, hrres, rfl, rfl⟩
    obtain ⟨r0, hr0, hr0id, hr0url⟩ := hex
    have hclause := imagesFold_clause dir remote (st.store.getFloors) st hnd
      (fun f hf => ⟨f, (mem_getFloors st.store f).mp hf, rfl, rfl⟩)
      (getFloors_ids_nodup st.store hnd)
      r0 ((mem_getFloors st.store r0).mpr hr0) url (by rw [hr0url, hurl]) hne
      r hrres hr0id.symm
    rw [hr0id] at hclause
    exact hclause

/-- Frame of `syncFloorImages`. -/
theorem syncFloorImages_frame (dir : String) (remote : Remote) (st : SyncState) :
    (syncFloorImages dir remote st).store.floors.map (fun r => (r.id, r.image_url))
        = st.store.floors.map (fun r => (r.id, r.image_url)) ∧
    (syncFloorImages dir remote st).store.waypoints = st.store.waypoints ∧
    (syncFloorImages dir remote st).store.connections = st.store.connections ∧
    (syncFloorImages dir remote st).store.rooms = st.store.rooms ∧
    (syncFloorImages dir remote st).store.kiosks = st.store.kiosks ∧
    (syncFloorImages dir remote st).store.syncInfo = st.store.syncInfo ∧
    (syncFloorImages dir remote st).dataHashes = st.dataHashes := by
  unfold syncFloorImages
  by_cases hnil : st.store.getFloors = []
  · rw [if_pos hnil]
    exact ⟨rfl, rfl, rfl, rfl, rfl, rfl, rfl⟩
  · rw [if_neg hnil]
    have h := imagesFold_frame dir remote (st.store.getFloors) st
    exact ⟨h.1, h.2.1, h.2.2.1, h.2.2.2.1, h.2.2.2.2.1, h.2.2.2.2.2.1, h.2.2.2.2.2.2.1⟩

/-! ## The per-floor waypoints/connections loop -/

theorem loopStep_store_frame (h : Payload → String) (remote : Remote) (i : Int)
    (st : SyncState) :
    (attemptSync (syncConnectionsForFloor h remote i)
        (attemptSync (syncWaypointsForFloor h remote i) st)).store.floors = st.store.floors ∧
    (attemptSync (syncConnectionsForFloor h remote i)
        (attemptSync (syncWaypointsForFloor h remote i) st)).store.rooms = st.store.rooms ∧
    (attemptSync (syncConnectionsForFloor h remote i)
        (attemptSync (syncWaypointsForFloor h remote i) st)).store.kiosks = st.store.kiosks ∧
    (attemptSync (syncConnectionsForFloor h remote i)
        (attemptSync (syncWaypointsForFloor h remote i) st)).store.syncInfo = st.store.syncInfo ∧
    (attemptSync (syncConnectionsForFloor h remote i)
        (attemptSync (syncWaypointsForFloor h remote i) st)).files = st.files := by
  have h1 := syncWaypointsForFloor_attempt_cases h remote i st
  have h2 := syncConnectionsForFloor_attempt_cases h remote i
    (attemptSync (syncWaypointsForFloor h remote i) st)
  rcases h1 with e1 | ⟨d1, _, e1⟩ <;> rcases h2 with e2 | ⟨d2, _, e2⟩ <;>
    rw [e2, e1] <;> exact ⟨rfl, rfl, rfl, rfl, rfl⟩

theorem loopStep_key_frame (h : Payload → String) (remote : Remote) (i : Int)
    (st : SyncState) (k : SyncKey)
    (hkw : ¬ k = SyncKey.waypoints i) (hkc : ¬ k = SyncKey.connections i) :
    lookupA (attemptSync (syncConnectionsForFloor h remote i)
        (attemptSync (syncWaypointsForFloor h remote i) st)).dataHashes k =
      lookupA st.dataHashes k := by
  rw [syncConnectionsForFloor_attempt_key_frame h remote i _ k hkc,
    syncWaypointsForFloor_attempt_key_frame h remote i _ k hkw]

theorem loopFold_store_frame (h : Payload → String) (remote : Remote) :
    ∀ (l : List Floor) (st : SyncState),
      (l.foldl (fun acc floor =>
          attemptSync (syncConnectionsForFloor h remote floor.id)
            (attemptSync (syncWaypointsForFloor h remote floor.id) acc)) st).store.floors
        = st.store.floors ∧
      (l.foldl (fun acc floor =>
          attemptSync (syncConnectionsForFloor h remote floor.id)
            (attemptSync (syncWaypointsForFloor h remote floor.id) acc)) st).store.rooms
        = st.store.rooms ∧
      (l.foldl (fun acc floor =>
          attemptSync (syncConnectionsForFloor h remote floor.id)
            (attemptSync (syncWaypointsForFloor h remote floor.id) acc)) st).store.kiosks
        = st.store.kiosks ∧
      (l.foldl (fun acc floor =>
          attemptSync (syncConnectionsForFloor h remote floor.id)
            (attemptSync (syncWaypointsForFloor h remote floor.id) acc)) st).store.syncInfo
        = st.store.syncInfo ∧
      (l.foldl (fun acc floor =>
          attemptSync (syncConnectionsForFloor h remote floor.id)
            (attemptSync (syncWaypointsForFloor h remote floor.id) acc)) st).files
        = st.files := by
  intro l
  induction l with
  | nil => exact fun st => ⟨rfl, rfl, rfl, rfl, rfl⟩
  | cons f rest ih =>
    intro st
    have hs := loopStep_store_frame h remote f.id st
    have hr := ih (attemptSync (syncConnectionsForFloor h remote f.id)
      (attemptSync (syncWaypointsForFloor h remote f.id) st))
    exact ⟨hr.1.trans hs.1, hr.2.1.trans hs.2.1, hr.2.2.1.trans hs.2.2.1,
      hr.2.2.2.1.trans hs.2.2.2.1, hr.2.2.2.2.trans hs.2.2.2.2⟩

theorem loopFold_key_frame (h : Payload → String) (remote : Remote) :
    ∀ (l : List Floor) (st : SyncState) (k : SyncKey),
      (∀ f ∈ l, ¬ k = SyncKey.waypoints f.id ∧ ¬ k = SyncKey.connections f.id) →
      lookupA ((l.foldl (fun acc floor =>
          attemptSync (syncConnectionsForFloor h remote floor.id)
            (attemptSync (syncWaypointsForFloor h remote floor.id) acc)) st).dataHashes) k
        = lookupA st.dataHashes k := by
  intro l
  induction l with
  | nil => exact fun st k _ => rfl
  | cons f rest ih =>
    intro st k hk
    have hf := hk f (List.mem_cons_self _ _)
    simp only [List.foldl_cons]
    rw [ih _ k (fun g hg => hk g (List.mem_cons_of_mem _ hg)),
      loopStep_key_frame h remote f.id st k hf.1 hf.2]

theorem loopFold_cache (h : Payload → String) (remote : Remote) :
    ∀ (l : List Floor) (st : SyncState),
      (l.map Floor.id).Nodup →
      ∀ f ∈ l,
        (∀ d, remote.waypointsResp f.id = .ok d →
          lookupA ((l.foldl (fun acc floor =>
              attemptSync (syncConnectionsForFloor h remote floor.id)
                (attemptSync (syncWaypointsForFloor h remote floor.id) acc)) st).dataHashes)
            (SyncKey.waypoints f.id) = some (h (.waypoints d))) ∧
        (∀ d, remote.connectionsResp f.id = .ok d →
          lookupA ((l.foldl (fun acc floor =>
              attemptSync (syncConnectionsForFloor h remote floor.id)
                (attemptSync (syncWaypointsForFloor h remote floor.id) acc)) st).dataHashes)
            (SyncKey.connections f.id) = some (h (.connections d))) := by
  intro l
  induction l with
  | nil => intro st _ f hf; cases hf
  | cons g rest ih =>
    intro st hnd f hf
    simp only [List.map_cons, List.nodup_cons] at hnd
    rcases List.mem_cons.mp hf with hfg | hfr
    · subst hfg
      simp only [List.foldl_cons]
      constructor
      · intro d hresp
        rw [loopFold_key_frame h remote rest _ (SyncKey.waypoints f.id) ?_]
        · rw [syncConnectionsForFloor_attempt_key_frame h remote f.id _ _ (by simp)]
          exact syncWaypointsForFloor_attempt_cache h remote f.id st d hresp
        · intro g' hg'
          refine ⟨fun hh => hnd.1 ?_, by simp⟩
          rw [SyncKey.waypoints.injEq] at hh
          rw [hh]
          exact List.mem_map.mpr ⟨g', hg', rfl⟩
      · intro d hresp
        rw [loopFold_key_frame h remote rest _ (SyncKey.connections f.id) ?_]
        · exact syncConnectionsForFloor_attempt_cache h remote f.id _ d hresp
        · intro g' hg'
          refine ⟨by simp, fun hh => hnd.1 ?_⟩
          rw [SyncKey.connections.injEq] at hh
          rw [hh]
          exact List.mem_map.mpr ⟨g', hg', rfl⟩
    · exact ih _ hnd.2 f hfr

theorem loopFold_skip (h : Payload → String) (remote : Remote) :
    ∀ (l : List Floor) (st : SyncState),
      (∀ f ∈ l,
        (∀ d, remote.waypointsResp f.id = .ok d →
          lookupA st.dataHashes (SyncKey.waypoints f.id) = some (h (.waypoints d))) ∧
        (∀ d, remote.connectionsResp f.id = .ok d →
          lookupA st.dataHashes (SyncKey.connections f.id) = some (h (.connections d)))) →
      (l.foldl (fun acc floor =>
          attemptSync (syncConnectionsForFloor h remote floor.id)
            (attemptSync (syncWaypointsForFloor h remote floor.id) acc)) st) = st := by
  intro l
  induction l with
  | nil => exact fun st _ => rfl
  | cons f rest ih =>
    intro st hhit
    have hw : attemptSync (syncWaypointsForFloor h remote f.id) st = st := by
      unfold attemptSync
      cases hresp : remote.waypointsResp f.id with
      | error e =>
        unfold syncWaypointsForFloor
        rw [hresp]
      | ok d =>
        rw [syncWaypointsForFloor_skip h remote f.id st d hresp
          ((hhit f (List.mem_cons_self _ _)).1 d hresp)]
    have hc : attemptSync (syncConnectionsForFloor h remote f.id) st = st := by
      unfold attemptSync
      cases hresp : remote.connectionsResp f.id with
      | error e =>
        unfold syncConnectionsForFloor
        rw [hresp]
      | ok d =>
        rw [syncConnectionsForFloor_skip h remote f.id st d hresp
          ((hhit f (List.mem_cons_self _ _)).2 d hresp)]
    show (rest.foldl _ (attemptSync (syncConnectionsForFloor h remote f.id)
      (attemptSync (syncWaypointsForFloor h remote f.id) st))) = st
    rw [hw, hc]
    exact ih st (fun g hg => hhit g (List.mem_cons_of_mem _ hg))

/-! ## Store frames of the rooms/kiosks/floors attempts -/

theorem syncFloors_attempt_store_frame (h : Payload → String) (remote : Remote)
    (st : SyncState) :
    (attemptSync (syncFloors h remote) st).store.waypoints = st.store.waypoints ∧
    (attemptSync (syncFloors h remote) st).store.connections = st.store.connections ∧
    (attemptSync (syncFloors h remote) st).store.rooms = st.store.rooms ∧
    (attemptSync (syncFloors h remote) st).store.kiosks = st.store.kiosks ∧
    (attemptSync (syncFloors h remote) st).store.syncInfo = st.store.syncInfo ∧
    (attemptSync (syncFloors h remote) st).files = st.files := by
  rcases syncFloors_attempt_cases h remote st with e | ⟨d, _, e⟩ <;> rw [e] <;>
    exact ⟨rfl, rfl, rfl, rfl, rfl, rfl⟩

theorem syncRooms_attempt_store_frame (h : Payload → String) (remote : Remote)
    (st : SyncState) :
    (attemptSync (syncRooms h remote) st).store.floors = st.store.floors ∧
    (attemptSync (syncRooms h remote) st).store.waypoints = st.store.waypoints ∧
    (attemptSync (syncRooms h remote) st).store.connections = st.store.connections ∧
    (attemptSync (syncRooms h remote) st).store.kiosks = st.store.kiosks ∧
    (attemptSync (syncRooms h remote) st).store.syncInfo = st.store.syncInfo ∧
    (attemptSync (syncRooms h remote) st).files = st.files := by
  rcases syncRooms_attempt_cases h remote st with e | ⟨d, _, e⟩ <;> rw [e] <;>
    exact ⟨rfl, rfl, rfl, rfl, rfl, rfl⟩

theorem syncKiosks_attempt_store_frame (h : Payload → String) (remote : Remote)
    (st : SyncState) :
    (attemptSync (syncKiosks h remote) st).store.floors = st.store.floors ∧
    (attemptSync (syncKiosks h remote) st).store.waypoints = st.store.waypoints ∧
    (attemptSync (syncKiosks h remote) st).store.connections = st.store.connections ∧
    (attemptSync (syncKiosks h remote) st).store.rooms = st.store.rooms ∧
    (attemptSync (syncKiosks h remote) st).store.syncInfo = st.store.syncInfo ∧
    (attemptSync (syncKiosks h remote) st).files = st.files := by
  rcases syncKiosks_attempt_cases h remote st with e | ⟨d, _, e⟩ <;> rw [e] <;>
    exact ⟨rfl, rfl, rfl, rfl, rfl, rfl⟩

/-! ## Primary-key floors through the pipeline -/

theorem syncFloors_attempt_nodup (h : Payload → String) (remote : Remote)
    (st : SyncState) (hnd : (st.store.floors.map Floor.id).Nodup) :
    ((attemptSync (syncFloors h remote) st).store.floors.map Floor.id).Nodup := by
  rcases syncFloors_attempt_cases h remote st with e | ⟨d, _, e⟩ <;> rw [e]
  · exact hnd
  · exact upsertFloors_ids_nodup d [] (by simp)

/-! ## Invariant transports -/

theorem imagesOk_transport (dir : String) (remote : Remote) {st st' : SyncState}
    (hfl : st'.store.floors = st.store.floors) (hfi : st'.files = st.files)
    (h : ImagesOk dir remote st) : ImagesOk dir remote st' := by
  intro f hf url hurl hne
  rw [hfl] at hf
  rw [hfi]
  exact h f hf url hurl hne

theorem cacheOk_transport (h : Payload → String) (remote : Remote) {st st' : SyncState}
    (hfl : st'.store.floors = st.store.floors) (hdh : st'.dataHashes = st.dataHashes)
    (hc : CacheOk h remote st) : CacheOk h remote st' := by
  obtain ⟨h1, h2, h3, h4, h5⟩ := hc
  refine ⟨?_, ?_, ?_, ?_, ?_⟩ <;> rw [hdh]
  · exact h1
  · exact h2
  · exact h3
  · intro i d hresp hmem
    rw [hfl] at hmem
    exact h4 i d hresp hmem
  · intro i d hresp hmem
    rw [hfl] at hmem
    exact h5 i d hresp hmem

/-! ## Postconditions of a full resource phase -/

theorem syncResources_post (h : Payload → String) (dir : String) (remote : Remote)
    (st : SyncState) (hnd : (st.store.floors.map Floor.id).Nodup) :
    CacheOk h remote (syncResources h dir remote st) ∧
    ImagesOk dir remote (syncResources h dir remote st) ∧
    ((syncResources h dir remote st).store.floors.map Floor.id).Nodup := by
  have hres : syncResources h dir remote st =
      ((attemptSync (syncKiosks h remote)
          (attemptSync (syncRooms h remote)
            (syncFloorImages dir remote
              (attemptSync (syncFloors h remote) st)))).store.getFloors).foldl
        (fun acc floor =>
          attemptSync (syncConnectionsForFloor h remote floor.id)
            (attemptSync (syncWaypointsForFloor h remote floor.id) acc))
        (attemptSync (syncKiosks h remote)
          (attemptSync (syncRooms h remote)
            (syncFloorImages dir remote
              (attemptSync (syncFloors h remote) st)))) := rfl
  set st1 := attemptSync (syncFloors h remote) st with hst1
  set st2 := syncFloorImages dir remote st1 with hst2
  set st3 := attemptSync (syncRooms h remote) st2 with hst3
  set st4 := attemptSync (syncKiosks h remote) st3 with hst4
  have hnd1 : (st1.store.floors.map Floor.id).Nodup :=
    syncFloors_attempt_nodup h remote st hnd
  have him2 := syncFloorImages_frame dir remote st1
  have hnd2 : (st2.store.floors.map Floor.id).Nodup := by
    rw [ids_of_shape him2.1]
    exact hnd1
  have hfr3 := syncRooms_attempt_store_frame h remote st2
  have hfr4 := syncKiosks_attempt_store_frame h remote st3
  have hnd4 : (st4.store.floors.map Floor.id).Nodup := by
    rw [hfr4.1, hfr3.1]
    exact hnd2
  have hloopfr := loopFold_store_frame h remote (st4.store.getFloors) st4
  have hndres : ((syncResources h dir remote st).store.floors.map Floor.id).Nodup := by
    rw [hres, hloopfr.1]
    exact hnd4
  refine ⟨⟨?_, ?_, ?_, ?_, ?_⟩, ?_, hndres⟩
  · -- floors fingerprint
    intro d hresp
    rw [hres, loopFold_key_frame h remote _ _ _ (fun f _ => ⟨by simp, by simp⟩),
      syncKiosks_attempt_key_frame h remote st3 _ (by simp),
      syncRooms_attempt_key_frame h remote st2 _ (by simp), him2.2.2.2.2.2.2]
    exact syncFloors_attempt_cache h remote st d hresp
  · -- rooms fingerprint
    intro d hresp
    rw [hres, loopFold_key_frame h remote _ _ _ (fun f _ => ⟨by simp, by simp⟩),
      syncKiosks_attempt_key_frame h remote st3 _ (by simp)]
    exact syncRooms_attempt_cache h remote st2 d hresp
  · -- kiosks fingerprint
    intro d hresp
    rw [hres, loopFold_key_frame h remote _ _ _ (fun f _ => ⟨by simp, by simp⟩)]
    exact syncKiosks_attempt_cache h remote st3 d hresp
  · -- per-floor waypoints fingerprints
    intro i d hresp hmem
    rw [hres, hloopfr.1] at hmem
    obtain ⟨f, hf, hfid⟩ := List.mem_map.mp hmem
    have hcache := (loopFold_cache h remote (st4.store.getFloors) st4
      (getFloors_ids_nodup st4.store hnd4) f
      ((mem_getFloors st4.store f).mpr hf)).1 d (by rw [hfid]; exact hresp)
    rw [hres]
    rw [hfid] at hcache
    exact hcache
  · -- per-floor connections fingerprints
    intro i d hresp hmem
    rw [hres, hloopfr.1] at hmem
    obtain ⟨f, hf, hfid⟩ := List.mem_map.mp hmem
    have hcache := (loopFold_cache h remote (st4.store.getFloors) st4
      (getFloors_ids_nodup st4.store hnd4) f
      ((mem_getFloors st4.store f).mpr hf)).2 d (by rw [hfid]; exact hresp)
    rw [hres]
    rw [hfid] at hcache
    exact hcache
  · -- images invariant
    have him : ImagesOk dir remote st2 := syncFloorImages_establishes dir remote st1 hnd1
    have him3 : ImagesOk dir remote st3 := imagesOk_transport dir remote hfr3.1 hfr3.2.2.2.2.2 him
    have him4 : ImagesOk dir remote st4 := imagesOk_transport dir remote hfr4.1 hfr4.2.2.2.2.2 him3
    rw [hres]
    exact imagesOk_transport dir remote hloopfr.1 hloopfr.2.2.2.2 him4

/-! ## A second run is a no-op on the resource phase -/

theorem syncFloorImage_noop (dir : String) (remote : Remote) (st : SyncState)
    (f : Floor) (hf : f ∈ st.store.floors) (himg : ImagesOk dir remote st)
    (hnd : (st.store.floors.map Floor.id).Nodup) :
    syncFloorImage dir remote st f = st := by
  unfold syncFloorImage
  cases hu : f.image_url with
  | none => rfl
  | some url =>
    dsimp only
    by_cases he : url = ""
    · rw [if_pos he]
    · rw [if_neg he]
      rcases himg f hf url hu he with ⟨hm, hlip⟩ | ⟨hm, herr⟩
      · rw [if_pos hm]
        have hsf : st.store.setFloorLocalImagePath f.id
            (some (renderImagePath dir (imageFileFor f.id url))) = st.store := by
          apply setFloorLocalImagePath_self
          intro r hr hid
          have hrf : r = f := List.inj_on_of_nodup_map hnd hr hf hid
          rw [hrf, hlip]
        rw [hsf]
      · obtain ⟨e, herr⟩ := herr
        rw [if_neg hm, herr]

theorem syncFloorImages_noop (dir : String) (remote : Remote) (st : SyncState)
    (himg : ImagesOk dir remote st)
    (hnd : (st.store.floors.map Floor.id).Nodup) :
    syncFloorImages dir remote st = st := by
  unfold syncFloorImages
  by_cases hnil : st.store.getFloors = []
  · rw [if_pos hnil]
  · rw [if_neg hnil]
    have key : ∀ l : List Floor, (∀ f ∈ l, f ∈ st.store.floors) →
        l.foldl (syncFloorImage dir remote) st = st := by
      intro l
      induction l with
      | nil => intro _; rfl
      | cons f rest ih =>
        intro hmem
        simp only [List.foldl_cons]
        rw [syncFloorImage_noop dir remote st f (hmem f (List.mem_cons_self _ _)) himg hnd]
        exact ih (fun g hg => hmem g (List.mem_cons_of_mem _ hg))
    exact key _ (fun f hf => (mem_getFloors st.store f).mp hf)

theorem syncResources_noop (h : Payload → String) (dir : String) (remote : Remote)
    (st : SyncState) (hcache : CacheOk h remote st) (himg : ImagesOk dir remote st)
    (hnd : (st.store.floors.map Floor.id).Nodup) :
    syncResources h dir remote st = st := by
  obtain ⟨hcf, hcr, hck, hcw, hcc⟩ := hcache
  have h1 : attemptSync (syncFloors h remote) st = st := by
    unfold attemptSync
    cases hresp : remote.floorsResp with
    | error e =>
      unfold syncFloors
      rw [hresp]
    | ok d => rw [syncFloors_skip h remote st d hresp (hcf d hresp)]
  have h2 : syncFloorImages dir remote st = st := syncFloorImages_noop dir remote st himg hnd
  have h3 : attemptSync (syncRooms h remote) st = st := by
    unfold attemptSync
    cases hresp : remote.roomsResp with
    | error e =>
      unfold syncRooms
      rw [hresp]
    | ok d => rw [syncRooms_skip h remote st d hresp (hcr d hresp)]
  have h4 : attemptSync (syncKiosks h remote) st = st := by
    unfold attemptSync
    cases hresp : remote.kiosksResp with
    | error e =>
      unfold syncKiosks
      rw [hresp]
    | ok d => rw [syncKiosks_skip h remote st d hresp (hck d hresp)]
  have h5 : (st.store.getFloors).foldl
      (fun acc floor =>
        attemptSync (syncConnectionsForFloor h remote floor.id)
          (attemptSync (syncWaypointsForFloor h remote floor.id) acc)) st = st := by
    apply loopFold_skip
    intro f hf
    have hmem : f.id ∈ st.store.floors.map Floor.id :=
      List.mem_map.mpr ⟨f, (mem_getFloors st.store f).mp hf, rfl⟩
    exact ⟨fun d hresp => hcw f.id d hresp hmem, fun d hresp => hcc f.id d hresp hmem⟩
  show ((attemptSync (syncKiosks h remote)
      (attemptSync (syncRooms h remote)
        (syncFloorImages dir remote
          (attemptSync (syncFloors h remote) st)))).store.getFloors).foldl _
    (attemptSync (syncKiosks h remote)
      (attemptSync (syncRooms h remote)
        (syncFloorImages dir remote
          (attemptSync (syncFloors h remote) st)))) = st
  rw [h1, h2, h3, h4]
  exact h5

/-! ## Cleanup of an already-cleaned store -/

theorem cleanup_twice_tables (Y : Store) (k v n : String) :
    ((((Y.cleanupOrphans).setSyncInfo k v n).cleanupOrphans).floors
      = (Y.cleanupOrphans).floors) ∧
    ((((Y.cleanupOrphans).setSyncInfo k v n).cleanupOrphans).waypoints
      = (Y.cleanupOrphans).waypoints) ∧
    ((((Y.cleanupOrphans).setSyncInfo k v n).cleanupOrphans).connections
      = (Y.cleanupOrphans).connections) ∧
    ((((Y.cleanupOrphans).setSyncInfo k v n).cleanupOrphans).rooms
      = (Y.cleanupOrphans).rooms) ∧
    ((((Y.cleanupOrphans).setSyncInfo k v n).cleanupOrphans).kiosks
      = (Y.cleanupOrphans).kiosks) := by
  have hwp : (Y.waypoints.filter
        (fun w => Y.floors.any (fun f => f.id = w.floor_id))).filter
        (fun w => Y.floors.any (fun f => f.id = w.floor_id))
      = Y.waypoints.filter (fun w => Y.floors.any (fun f => f.id = w.floor_id)) :=
    List.filter_eq_self.mpr (fun w hw => (List.mem_filter.mp hw).2)
  refine ⟨rfl, hwp, ?_, ?_, ?_⟩
  · -- connections: both endpoint filters keep everything
    show ((((Y.connections.filter _).filter _).filter
        (fun c => ((Y.waypoints.filter (fun w => Y.floors.any (fun f => f.id = w.floor_id))).filter
          (fun w => Y.floors.any (fun f => f.id = w.floor_id))).any
            (fun w => w.id = c.from_waypoint_id))).filter
        (fun c => ((Y.waypoints.filter (fun w => Y.floors.any (fun f => f.id = w.floor_id))).filter
          (fun w => Y.floors.any (fun f => f.id = w.floor_id))).any
            (fun w => w.id = c.to_waypoint_id))) = _
    rw [hwp]
    rw [List.filter_eq_self.mpr (fun c hc => (List.mem_filter.mp (List.mem_filter.mp hc).1).2)]
    exact List.filter_eq_self.mpr (fun c hc => (List.mem_filter.mp (List.mem_filter.mp hc).1).2)
  · exact List.filter_eq_self.mpr (fun r hr => (List.mem_filter.mp hr).2)
  · exact List.filter_eq_self.mpr (fun q hq => (List.mem_filter.mp hq).2)

theorem setSyncInfo_filter_other (s : Store) (k v n : String) :
    ((s.setSyncInfo k v n).syncInfo).filter (fun r => ¬ (r.key = k))
      = s.syncInfo.filter (fun r => ¬ (r.key = k)) := by
  unfold Store.setSyncInfo
  rw [List.filter_append]
  have h1 : (s.syncInfo.filter (fun r => ¬ (r.key = k))).filter (fun r => ¬ (r.key = k))
      = s.syncInfo.filter (fun r => ¬ (r.key = k)) :=
    List.filter_eq_self.mpr (fun r hr => (List.mem_filter.mp hr).2)
  have h2 : ([(⟨k, v, n⟩ : SyncInfoRow)].filter (fun r => ¬ (r.key = k))) = [] := by
    simp
  rw [h1, h2, List.append_nil]

/-! ## Claim C3 -/

/-- **C3.** For every remote dataset (any deterministic remote), running
`syncAll()` twice in the same process with the remote responses unchanged
between the runs leaves every row of every Local Store table — floors,
waypoints, connections, rooms, kiosks — identical after the second run to
its state after the first run, and changes at most the `last_sync` entry of
`sync_info`.  (The initial store is assumed to respect the floors table's
`PRIMARY KEY` constraint: no two rows share an id.) -/
theorem syncAll_idempotent (h : Payload → String) (dir : String) (remote : Remote)
    (t1 t2 : String) (st s1 : SyncState)
    (hnd : (st.store.floors.map Floor.id).Nodup)
    (h1 : syncAll h dir remote t1 st = .ok s1) :
    ∃ s2, syncAll h dir remote t2 s1 = .ok s2 ∧
      s2.store.floors = s1.store.floors ∧
      s2.store.waypoints = s1.store.waypoints ∧
      s2.store.connections = s1.store.connections ∧
      s2.store.rooms = s1.store.rooms ∧
      s2.store.kiosks = s1.store.kiosks ∧
      s2.store.syncInfo.filter (fun r => ¬ (r.key = "last_sync"))
        = s1.store.syncInfo.filter (fun r => ¬ (r.key = "last_sync")) := by
  unfold syncAll at h1
  by_cases hh : remote.health = true
  case neg =>
    rw [if_neg hh] at h1
    exact absurd h1 (by simp)
  case pos =>
    rw [if_pos hh] at h1
    have hs1 : s1 = { syncResources h dir remote st with
        store := (((syncResources h dir remote st).store.setSyncInfo
          "last_sync" t1 t1).cleanupOrphans) } := by
      injection h1 with h1'
      exact h1'.symm
    obtain ⟨hcR, hiR, hndR⟩ := syncResources_post h dir remote st hnd
    have hfl : s1.store.floors = (syncResources h dir remote st).store.floors := by
      rw [hs1]
      rfl
    have hdh : s1.dataHashes = (syncResources h dir remote st).dataHashes := by
      rw [hs1]
    have hfi : s1.files = (syncResources h dir remote st).files := by
      rw [hs1]
    have hc1 : CacheOk h remote s1 := cacheOk_transport h remote hfl hdh hcR
    have hi1 : ImagesOk dir remote s1 := imagesOk_transport dir remote hfl hfi hiR
    have hnd1 : (s1.store.floors.map Floor.id).Nodup := by
      rw [hfl]
      exact hndR
    have hnoop : syncResources h dir remote s1 = s1 :=
      syncResources_noop h dir remote s1 hc1 hi1 hnd1
    have htw := cleanup_twice_tables
      ((syncResources h dir remote st).store.setSyncInfo "last_sync" t1 t1)
      "last_sync" t2 t2
    refine ⟨{ s1 with store := ((s1.store.setSyncInfo "last_sync" t2 t2).cleanupOrphans) },
      ?_, ?_, ?_, ?_, ?_, ?_, ?_⟩
    · unfold syncAll
      rw [if_pos hh, hnoop]
    · rw [hs1]
      exact htw.1
    · rw [hs1]
      exact htw.2.1
    · rw [hs1]
      exact htw.2.2.1
    · rw [hs1]
      exact htw.2.2.2.1
    · rw [hs1]
      exact htw.2.2.2.2
    · show (((s1.store.setSyncInfo "last_sync" t2 t2).cleanupOrphans).syncInfo).filter
          (fun r => ¬ (r.key = "last_sync"))
        = s1.store.syncInfo.filter (fun r => ¬ (r.key = "last_sync"))
      rw [cleanupOrphans_syncInfo]
      exact setSyncInfo_filter_other s1.store "last_sync" t2 t2

/-- Witness for C3: a concrete first run from the empty state against the
all-ok remote computes to `c3RunOne`, and the theorem applies to it. -/
theorem syncAll_idempotent_witness :
    (c9State.store.floors.map Floor.id).Nodup ∧
    syncAll c9Hash "sd" c9Remote "t1" c9State = .ok c3RunOne ∧
    (∃ s2, syncAll c9Hash "sd" c9Remote "t2" c3RunOne = .ok s2 ∧
      s2.store.floors = c3RunOne.store.floors ∧
      s2.store.waypoints = c3RunOne.store.waypoints ∧
      s2.store.connections = c3RunOne.store.connections ∧
      s2.store.rooms = c3RunOne.store.rooms ∧
      s2.store.kiosks = c3RunOne.store.kiosks ∧
      s2.store.syncInfo.filter (fun r => ¬ (r.key = "last_sync"))
        = c3RunOne.store.syncInfo.filter (fun r => ¬ (r.key = "last_sync"))) :=
  ⟨by simp [c9State], rfl,
    syncAll_idempotent c9Hash "sd" c9Remote "t1" "t2" c9State c3RunOne
      (by simp [c9State]) rfl⟩

/-! ## Claim C5: association-list lemmas for the termination argument -/

theorem lookupA_none_iff {κ β : Type _} [DecidableEq κ] (l : List (κ × β)) (k : κ) :
    lookupA l k = none ↔ k ∉ l.map Prod.fst := by
  induction l with
  | nil => simp [lookupA]
  | cons p rest ih =>
    obtain ⟨k0, v0⟩ := p
    by_cases h : k0 = k
    · subst h
      simp [lookupA]
    · rw [List.map_cons]
      simp only [lookupA, if_neg h, List.mem_cons, ih]
      constructor
      · rintro hk (hkk | hmem)
        · exact h hkk.symm
        · exact hk hmem
      · intro hk hmem
        exact hk (Or.inr hmem)

theorem lookupA_mem {κ β : Type _} [DecidableEq κ] {l : List (κ × β)} {k : κ} {v : β}
    (h : lookupA l k = some v) : (k, v) ∈ l := by
  induction l with
  | nil => simp [lookupA] at h
  | cons p rest ih =>
    obtain ⟨k0, v0⟩ := p
    by_cases h0 : k0 = k
    · subst h0
      simp [lookupA] at h
      subst h
      exact List.mem_cons_self _ _
    · simp only [lookupA, if_neg h0] at h
      exact List.mem_cons_of_mem _ (ih h)

theorem setA_of_lookup_none {κ β : Type _} [DecidableEq κ] {l : List (κ × β)} {k : κ}
    (v : β) (h : lookupA l k = none) : setA l k v = l ++ [(k, v)] := by
  induction l with
  | nil => simp [setA]
  | cons p rest ih =>
    obtain ⟨k0, v0⟩ := p
    by_cases h0 : k0 = k
    · subst h0
      simp [lookupA] at h
    · simp only [lookupA, if_neg h0] at h
      simp [setA, if_neg h0, ih h]

theorem setA_keys_of_mem {κ β : Type _} [DecidableEq κ] {l : List (κ × β)} {k : κ}
    (v : β) (h : k ∈ l.map Prod.fst) :
    (setA l k v).map Prod.fst = l.map Prod.fst := by
  induction l with
  | nil => simp at h
  | cons p rest ih =>
    obtain ⟨k0, v0⟩ := p
    by_cases h0 : k0 = k
    · subst h0
      simp [setA]
    · have hr : k ∈ rest.map Prod.fst := by
        rcases List.mem_cons.mp h with h1 | h1
        · exact absurd h1.symm h0
        · exact h1
      simp [setA, if_neg h0, ih hr]

theorem setA_mem_sub {κ β : Type _} [DecidableEq κ] {l : List (κ × β)} {k : κ} {v : β}
    {x : κ × β} (h : x ∈ setA l k v) : x = (k, v) ∨ x ∈ l := by
  induction l with
  | nil => simpa [setA] using h
  | cons p rest ih =>
    obtain ⟨k0, v0⟩ := p
    by_cases h0 : k0 = k
    · subst h0
      rcases List.mem_cons.mp (by simpa [setA] using h) with h1 | h1
      · exact Or.inl h1
      · exact Or.inr (List.mem_cons_of_mem _ h1)
    · rcases List.mem_cons.mp (by simpa [setA, if_neg h0] using h) with h1 | h1
      · exact Or.inr (by simp [h1])
      · rcases ih h1 with h2 | h2
        · exact Or.inl h2
        · exact Or.inr (List.mem_cons_of_mem _ h2)

theorem setA_length_le {κ β : Type _} [DecidableEq κ] (l : List (κ × β)) (k : κ) (v : β) :
    (setA l k v).length ≤ l.length + 1 := by
  induction l with
  | nil => simp [setA]
  | cons p rest ih =>
    obtain ⟨k0, v0⟩ := p
    by_cases h0 : k0 = k
    · simp [setA, h0]
    · simp only [setA, if_neg h0, List.length_cons]
      omega

theorem eraseA_length_of_mem {κ β : Type _} [DecidableEq κ] {l : List (κ × β)} {k : κ}
    (h : k ∈ l.map Prod.fst) : (eraseA l k).length + 1 = l.length := by
  induction l with
  | nil => simp at h
  | cons p rest ih =>
    obtain ⟨k0, v0⟩ := p
    by_cases h0 : k0 = k
    · subst h0
      simp [eraseA]
    · have hr : k ∈ rest.map Prod.fst := by
        rcases List.mem_cons.mp h with h1 | h1
        · exact absurd h1.symm h0
        · exact h1
      have := ih hr
      simp only [eraseA, if_neg h0, List.length_cons]
      omega

theorem eraseA_sub {κ β : Type _} [DecidableEq κ] {l : List (κ × β)} {k : κ}
    {x : κ × β} (h : x ∈ eraseA l k) : x ∈ l := by
  induction l with
  | nil => simpa [eraseA] using h
  | cons p rest ih =>
    obtain ⟨k0, v0⟩ := p
    by_cases h0 : k0 = k
    · subst h0
      exact List.mem_cons_of_mem _ (by simpa [eraseA] using h)
    · rcases List.mem_cons.mp (by simpa [eraseA, if_neg h0] using h) with h1 | h1
      · simp [h1]
      · exact List.mem_cons_of_mem _ (ih h1)

theorem sumRanks_setA (cand : List ℝ) {l : List (String × ℝ)} {k : String} {old : ℝ}
    (v : ℝ) (h : lookupA l k = some old) :
    sumRanks cand (setA l k v) + rankR cand old = sumRanks cand l + rankR cand v := by
  induction l with
  | nil => simp [lookupA] at h
  | cons p rest ih =>
    obtain ⟨k0, v0⟩ := p
    by_cases h0 : k0 = k
    · subst h0
      simp [lookupA] at h
      subst h
      have hset : setA ((k0, v0) :: rest) k0 v = (k0, v) :: rest := by simp [setA]
      rw [hset]
      simp only [sumRanks, List.map_cons, List.sum_cons]
      omega
    · simp only [lookupA, if_neg h0] at h
      simp only [setA, if_neg h0, sumRanks, List.map_cons, List.sum_cons]
      have := ih h
      simp only [sumRanks] at this
      omega

theorem scanMin_mem {l : List (String × ℝ)} {p : String × ℝ}
    (h : Store.scanMin l = some p) : p ∈ l := by
  have key : ∀ (l : List (String × ℝ)) (b : Option (String × ℝ)) (q : String × ℝ),
      List.foldl
        (fun best p =>
          match best with
          | none => some p
          | some q => if p.2 < q.2 then some p else some q) b l = some q →
      (b = some q ∨ q ∈ l) := by
    intro l
    induction l with
    | nil =>
      intro b q hb
      exact Or.inl hb
    | cons x rest ih =>
      intro b q hb
      rw [List.foldl_cons] at hb
      rcases ih _ _ hb with h1 | h1
      · cases b with
        | none =>
          simp only at h1
          have hx : x = q := Option.some_inj.mp h1
          subst hx
          exact Or.inr (List.mem_cons_self _ _)
        | some b0 =>
          simp only at h1
          by_cases hc : x.2 < b0.2
          · rw [if_pos hc] at h1
            have hx : x = q := Option.some_inj.mp h1
            subst hx
            exact Or.inr (List.mem_cons_self _ _)
          · rw [if_neg hc] at h1
            exact Or.inl h1
      · exact Or.inr (List.mem_cons_of_mem _ h1)
  rcases key l none p h with h1 | h1
  · exact absurd h1 (by simp)
  · exact h1

/-! ## Claim C5: support and walk lemmas -/

theorem adjPairs_mem {adj : List (String × List (String × ℝ))} {u : String}
    {e : String × ℝ} (h : e ∈ (lookupA adj u).getD []) : e ∈ adjPairs adj := by
  cases hl : lookupA adj u with
  | none => rw [hl] at h; simp at h
  | some l =>
    rw [hl] at h
    simp only [Option.getD_some] at h
    have hm : (u, l) ∈ adj := lookupA_mem hl
    simp only [adjPairs, List.mem_join, List.mem_map]
    exact ⟨l, ⟨(u, l), hm, rfl⟩, h⟩

theorem adjTargets_mem {adj : List (String × List (String × ℝ))} {u : String}
    {e : String × ℝ} (h : e ∈ (lookupA adj u).getD []) : e.1 ∈ adjTargets adj := by
  cases hl : lookupA adj u with
  | none => rw [hl] at h; simp at h
  | some l =>
    rw [hl] at h
    simp only [Option.getD_some] at h
    have hm : (u, l) ∈ adj := lookupA_mem hl
    simp only [adjTargets, List.mem_join, List.mem_map]
    exact ⟨l.map Prod.fst, ⟨(u, l), hm, rfl⟩, List.mem_map_of_mem _ h⟩

theorem pushEdge_all {P : String × ℝ → Prop} {adj : List (String × List (String × ℝ))}
    (hadj : ∀ u e, e ∈ (lookupA adj u).getD [] → P e) {u0 : String} {e0 : String × ℝ}
    (he : P e0) :
    ∀ u e, e ∈ (lookupA (Store.pushEdge adj u0 e0) u).getD [] → P e := by
  intro u e hm
  unfold Store.pushEdge at hm
  cases h : lookupA adj u0 with
  | none =>
    rw [h, lookupA_setA] at hm
    by_cases hu : u0 = u
    · subst hu
      rw [if_pos rfl] at hm
      simp only [Option.getD_some, List.mem_singleton] at hm
      subst hm
      exact he
    · rw [if_neg hu] at hm
      exact hadj u e hm
  | some l =>
    rw [h, lookupA_setA] at hm
    by_cases hu : u0 = u
    · subst hu
      rw [if_pos rfl] at hm
      simp only [Option.getD_some, List.mem_append, List.mem_singleton] at hm
      rcases hm with hm | hm
      · exact hadj u0 e (by rw [h]; exact hm)
      · subst hm
        exact he
    · rw [if_neg hu] at hm
      exact hadj u e hm

theorem addConnection_nonneg {adj : List (String × List (String × ℝ))}
    (hadj : ∀ u e, e ∈ (lookupA adj u).getD [] → 0 ≤ e.2) {c : Connection}
    (hc : 0 ≤ c.distance) :
    ∀ u e, e ∈ (lookupA (Store.addConnection adj c) u).getD [] → 0 ≤ e.2 := by
  unfold Store.addConnection
  exact pushEdge_all (pushEdge_all hadj hc) hc

theorem addVertical_nonneg {adj : List (String × List (String × ℝ))}
    (hadj : ∀ u e, e ∈ (lookupA adj u).getD [] → 0 ≤ e.2) (w : Waypoint) :
    ∀ u e, e ∈ (lookupA (Store.addVertical adj w) u).getD [] → 0 ≤ e.2 := by
  unfold Store.addVertical
  by_cases ht : w.type = "stairs" ∨ w.type = "elevator"
  · rw [if_pos ht]
    cases hc : w.connects_to_waypoint with
    | none => exact hadj
    | some c =>
      by_cases hce : c = ""
      · simpa [hce] using hadj
      · simp only [if_neg hce]
        have h50 : (0 : ℝ) ≤ (50 : ℝ) := by norm_num
        exact pushEdge_all (pushEdge_all hadj h50) h50
  · rw [if_neg ht]
    exact hadj

theorem buildAdj_nonneg (ws : List Waypoint) (cs : List Connection)
    (hd : ∀ c ∈ cs, 0 ≤ c.distance) :
    ∀ u e, e ∈ (lookupA (Store.buildAdj ws cs) u).getD [] → 0 ≤ e.2 := by
  unfold Store.buildAdj
  have base : ∀ u e, e ∈ (lookupA (cs.foldl Store.addConnection []) u).getD [] → 0 ≤ e.2 := by
    have gen : ∀ (l : List Connection) (adj : List (String × List (String × ℝ))),
        (∀ c ∈ l, 0 ≤ c.distance) →
        (∀ u e, e ∈ (lookupA adj u).getD [] → 0 ≤ e.2) →
        ∀ u e, e ∈ (lookupA (l.foldl Store.addConnection adj) u).getD [] → 0 ≤ e.2 := by
      intro l
      induction l with
      | nil => intro adj _ hadj; exact hadj
      | cons c rest ih =>
        intro adj hl hadj
        rw [List.foldl_cons]
        exact ih _ (fun x hx => hl x (List.mem_cons_of_mem _ hx))
          (addConnection_nonneg hadj (hl c (List.mem_cons_self _ _)))
    exact gen cs [] hd (by intro u e hm; simp [lookupA] at hm)
  have gen2 : ∀ (l : List Waypoint) (adj : List (String × List (String × ℝ))),
      (∀ u e, e ∈ (lookupA adj u).getD [] → 0 ≤ e.2) →
      ∀ u e, e ∈ (lookupA (l.foldl Store.addVertical adj) u).getD [] → 0 ≤ e.2 := by
    intro l
    induction l with
    | nil => intro adj hadj; exact hadj
    | cons w rest ih =>
      intro adj hadj
      rw [List.foldl_cons]
      exact ih _ (addVertical_nonneg hadj w)
  exact gen2 ws _ base

theorem weightSum_append (p q : List (String × ℝ)) :
    weightSum (p ++ q) = weightSum p + weightSum q := by
  simp [weightSum]

theorem GPath_pairs {adj : List (String × List (String × ℝ))} {start : String}
    {p : List (String × ℝ)} {v : String} (h : GPath adj start p v) :
    ∀ x ∈ p, x ∈ pairSupport adj start := by
  induction h with
  | base =>
    intro x hx
    simp only [List.mem_singleton] at hx
    subst hx
    exact List.mem_cons_self _ _
  | step hp he ih =>
    intro x hx
    rcases List.mem_append.mp hx with hx | hx
    · exact ih x hx
    · simp only [List.mem_singleton] at hx
      subst hx
      exact List.mem_cons_of_mem _ (adjPairs_mem he)

theorem GPath_nonneg {adj : List (String × List (String × ℝ))} {start : String}
    (hnn : ∀ u e, e ∈ (lookupA adj u).getD [] → 0 ≤ e.2)
    {p : List (String × ℝ)} {v : String} (h : GPath adj start p v) :
    ∀ x ∈ p, 0 ≤ x.2 := by
  induction h with
  | base =>
    intro x hx
    simp only [List.mem_singleton] at hx
    subst hx
    exact le_refl 0
  | step hp he ih =>
    intro x hx
    rcases List.mem_append.mp hx with hx | hx
    · exact ih x hx
    · simp only [List.mem_singleton] at hx
      subst hx
      exact hnn _ _ he

theorem GPath_reachable {adj : List (String × List (String × ℝ))} {start : String}
    {p : List (String × ℝ)} {v : String} (h : GPath adj start p v) :
    Relation.ReflTransGen (AdjStep adj) start v := by
  induction h with
  | base => exact Relation.ReflTransGen.refl
  | step hp he ih => exact Relation.ReflTransGen.tail ih ⟨_, he⟩

theorem GPath_last {adj : List (String × List (String × ℝ))} {start : String}
    {p : List (String × ℝ)} {v : String} (h : GPath adj start p v) :
    ∃ p0 w0, p = p0 ++ [(v, w0)] := by
  induction h with
  | base => exact ⟨[], 0, rfl⟩
  | step hp he ih => exact ⟨_, _, rfl⟩

theorem mem_listsLE {α : Type _} (L : List α) (n : ℕ) (p : List α) :
    p ∈ listsLE L n ↔ p.length ≤ n ∧ ∀ x ∈ p, x ∈ L := by
  induction n generalizing p with
  | zero =>
    simp only [listsLE, List.mem_singleton]
    constructor
    · rintro rfl
      simp
    · rintro ⟨hlen, _⟩
      exact List.length_eq_zero.mp (Nat.le_zero.mp hlen)
  | succ n ih =>
    simp only [listsLE, List.mem_cons, List.mem_bind, List.mem_map]
    constructor
    · rintro (rfl | ⟨a, haL, t, ht, rfl⟩)
      · simp
      · rcases (ih t).mp ht with ⟨hlen, hmem⟩
        refine ⟨by simp; omega, ?_⟩
        intro x hx
        rcases List.mem_cons.mp hx with rfl | hx
        · exact haL
        · exact hmem x hx
    · rintro ⟨hlen, hmem⟩
      cases p with
      | nil => exact Or.inl rfl
      | cons a t =>
        right
        refine ⟨a, hmem a (List.mem_cons_self _ _), t, (ih t).mpr ⟨?_, ?_⟩, rfl⟩
        · simp only [List.length_cons] at hlen
          omega
        · intro x hx
          exact hmem x (List.mem_cons_of_mem _ hx)

theorem nodup_length_le_card {α : Type _} [DecidableEq α] {l L : List α}
    (hn : l.Nodup) (hsub : ∀ x ∈ l, x ∈ L) : l.length ≤ L.toFinset.card := by
  have h1 : l.toFinset.card = l.length := List.toFinset_card_of_nodup hn
  have h2 : l.toFinset ⊆ L.toFinset := by
    intro x hx
    rw [List.mem_toFinset] at hx ⊢
    exact hsub x hx
  calc l.length = l.toFinset.card := h1.symm
    _ ≤ L.toFinset.card := Finset.card_le_card h2

theorem GPath_weight_mem_cand {adj : List (String × List (String × ℝ))} {start : String}
    {p : List (String × ℝ)} {v : String} (h : GPath adj start p v)
    (hnd : (p.map Prod.fst).Nodup) : weightSum p ∈ candWeights adj start := by
  have hpairs := GPath_pairs h
  have hlen : p.length ≤ (pairSupport adj start).length := by
    have h1 : (p.map Prod.fst).length ≤
        ((pairSupport adj start).map Prod.fst).toFinset.card := by
      refine nodup_length_le_card hnd ?_
      intro x hx
      rcases List.mem_map.mp hx with ⟨q, hq, rfl⟩
      exact List.mem_map_of_mem _ (hpairs q hq)
    have h2 : ((pairSupport adj start).map Prod.fst).toFinset.card ≤
        ((pairSupport adj start).map Prod.fst).length :=
      List.toFinset_card_le _
    simp only [List.length_map] at h1 h2
    omega
  exact List.mem_map_of_mem _ ((mem_listsLE _ _ _).mpr ⟨hlen, hpairs⟩)

/-! ## Claim C5: rank bookkeeping -/

theorem countP_strict {p q : ℝ → Bool} {l : List ℝ} {x : ℝ}
    (hx : x ∈ l) (hpx : p x = false) (hqx : q x = true)
    (hmono : ∀ y, p y = true → q y = true) :
    l.countP p < l.countP q := by
  induction l with
  | nil => simp at hx
  | cons a rest ih =>
    rw [List.countP_cons, List.countP_cons]
    rcases List.mem_cons.mp hx with rfl | hx
    · rw [hpx, hqx]
      have hle : rest.countP p ≤ rest.countP q :=
        List.countP_mono_left (fun y _ hy => hmono y hy)
      simp only [Bool.false_eq_true, if_false, if_true]
      omega
    · have h1 := ih hx
      have h2 : (if p a = true then 1 else 0) ≤ (if q a = true then 1 else 0) := by
        by_cases hpa : p a = true
        · simp [hpa, hmono a hpa]
        · simp [hpa]
      omega

theorem rankR_lt {cand : List ℝ} {a b : ℝ} (ha : a ∈ cand) (hab : a < b) :
    rankR cand a < rankR cand b := by
  unfold rankR
  refine countP_strict ha ?_ ?_ ?_
  · simp
  · simp [hab]
  · intro y hy
    simp only [decide_eq_true_eq] at hy ⊢
    exact lt_trans hy hab

theorem sumRanks_snoc (cand : List ℝ) (l : List (String × ℝ)) (p : String × ℝ) :
    sumRanks cand (l ++ [p]) = sumRanks cand l + rankR cand p.2 := by
  simp [sumRanks]

theorem snoc_eq_append_cons {α : Type _} {p p1 p2 : List α} {a x : α}
    (h : p ++ [a] = p1 ++ x :: p2) :
    (p2 = [] ∧ p1 = p ∧ x = a) ∨ ∃ p3, p2 = p3 ++ [a] ∧ p = p1 ++ x :: p3 := by
  rcases List.eq_nil_or_concat p2 with rfl | ⟨p3, a2, rfl⟩
  · have h2 := List.append_inj' h (by simp)
    have hx : x = a := by simpa using h2.2.symm
    exact Or.inl ⟨rfl, h2.1.symm, hx⟩
  · have h2 : p ++ [a] = (p1 ++ x :: p3) ++ [a2] := by
      rw [h, List.concat_eq_append]
      simp
    have h3 := List.append_inj' h2 (by simp)
    have ha2 : a = a2 := by simpa using h3.2
    refine Or.inr ⟨p3, ?_, h3.1⟩
    rw [List.concat_eq_append, ha2]

theorem measure_fresh_arith {s r B S len o o2 : ℕ} (hr : r ≤ B) (hkey : len + 1 ≤ S)
    (ho : o2 ≤ o + 1) :
    s + r + (B + 1) * (S - (len + 1)) + o2 ≤ s + (B + 1) * (S - len) + o := by
  have h1 : S - len = (S - (len + 1)) + 1 := by omega
  have h2 : (B + 1) * (S - len) = (B + 1) * (S - (len + 1)) + (B + 1) := by
    rw [h1, Nat.mul_succ]
  omega

theorem measure_update_arith {s s2 rt rn B S len o o2 : ℕ}
    (hsum : s2 + rn = s + rt) (hlt : rt < rn) (ho : o2 ≤ o + 1) :
    s2 + (B + 1) * (S - len) + o2 ≤ s + (B + 1) * (S - len) + o := by
  omega

theorem measureA_eq (adj : List (String × List (String × ℝ))) (start : String)
    (st : Store.AState) :
    measureA adj start st = sumRanks (candWeights adj start) st.gScore
      + ((candWeights adj start).length + 1)
        * ((nodeSupport adj start).toFinset.card - st.gScore.length)
      + st.openSet.length := rfl

theorem goodEntry_extend_notin {adj : List (String × List (String × ℝ))}
    {start current : String} {gScore : List (String × ℝ)} {e : String × ℝ} {gc : ℝ}
    {p : List (String × ℝ)}
    (hnn : ∀ u e, e ∈ (lookupA adj u).getD [] → 0 ≤ e.2)
    (hP : GPath adj start p current) (hw : weightSum p = gc) (hPB : PathBound gScore p)
    (himp : ∀ gn, lookupA gScore e.1 = some gn → gc + e.2 < gn)
    (hee : 0 ≤ e.2) :
    e.1 ∉ p.map Prod.fst := by
  intro hmem
  rcases List.mem_map.mp hmem with ⟨q, hq, hq1⟩
  rcases List.append_of_mem hq with ⟨p1, p2, hdec⟩
  obtain ⟨gx, hgx, hb⟩ := hPB p1 q.1 q.2 p2 (by rw [hdec])
  have hgx2 : lookupA gScore e.1 = some gx := by rw [← hq1]; exact hgx
  have himp2 := himp gx hgx2
  have hnng := GPath_nonneg hnn hP
  have hsplit : weightSum p = weightSum (p1 ++ [(q.1, q.2)]) + weightSum p2 := by
    rw [← weightSum_append, hdec]
    simp
  have hp2nn : 0 ≤ weightSum p2 := by
    unfold weightSum
    refine List.sum_nonneg ?_
    intro x hx
    rcases List.mem_map.mp hx with ⟨y, hy, rfl⟩
    refine hnng y ?_
    rw [hdec]
    exact List.mem_append.mpr (Or.inr (List.mem_cons_of_mem _ hy))
  have : gx ≤ gc := by
    rw [← hw, hsplit]
    have := hb
    linarith
  linarith

theorem relaxUpdate_good {adj : List (String × List (String × ℝ))}
    {start current : String} {wpMap : List (String × Waypoint)} {endWp : Waypoint}
    {st : Store.AState} {e : String × ℝ} {gc : ℝ}
    (hnn : ∀ u e, e ∈ (lookupA adj u).getD [] → 0 ≤ e.2)
    (he : e ∈ (lookupA adj current).getD [])
    (hinv : AInv adj start st)
    (hgc : lookupA st.gScore current = some gc)
    (himp : ∀ gn, lookupA st.gScore e.1 = some gn → gc + e.2 < gn) :
    AInv adj start (Store.relaxUpdate wpMap endWp current st e.1 (gc + e.2)) ∧
    measureA adj start (Store.relaxUpdate wpMap endWp current st e.1 (gc + e.2)) ≤
      measureA adj start st := by
  obtain ⟨hnd, hsupp, hgood, hopen⟩ := hinv
  obtain ⟨P, hP, hPnd, hPw, hPB⟩ := hgood _ (lookupA_mem hgc)
  have hee : 0 ≤ e.2 := hnn _ _ he
  have hnotin : e.1 ∉ P.map Prod.fst :=
    goodEntry_extend_notin hnn hP hPw hPB himp hee
  have hPnew : GPath adj start (P ++ [(e.1, e.2)]) e.1 := GPath.step hP he
  have hndnew : ((P ++ [(e.1, e.2)]).map Prod.fst).Nodup := by
    rw [List.map_append, List.nodup_append]
    refine ⟨hPnd, List.nodup_singleton _, ?_⟩
    intro x hx hx2
    simp only [List.map_cons, List.map_nil, List.mem_singleton] at hx2
    subst hx2
    exact hnotin hx
  have hwnew : weightSum (P ++ [(e.1, e.2)]) = gc + e.2 := by
    rw [weightSum_append, hPw]
    simp [weightSum]
  have hPB2 : ∀ pth, PathBound st.gScore pth →
      PathBound (setA st.gScore e.1 (gc + e.2)) pth := by
    intro pth hold p1 x w p2 hdec
    obtain ⟨gx, hgx, hb⟩ := hold p1 x w p2 hdec
    by_cases hx : e.1 = x
    · subst hx
      refine ⟨gc + e.2, ?_, ?_⟩
      · rw [lookupA_setA, if_pos rfl]
      · exact le_trans (le_of_lt (himp gx hgx)) hb
    · exact ⟨gx, by rw [lookupA_setA, if_neg hx]; exact hgx, hb⟩
  have hPBnew : PathBound (setA st.gScore e.1 (gc + e.2)) (P ++ [(e.1, e.2)]) := by
    intro p1 x w p2 hdec
    rcases snoc_eq_append_cons hdec with ⟨rfl, rfl, hxw⟩ | ⟨p3, rfl, hPdec⟩
    · have hx1 : x = e.1 := by
        simpa using congrArg Prod.fst hxw
      have hw1 : w = e.2 := by
        simpa using congrArg Prod.snd hxw
      subst hx1
      subst hw1
      refine ⟨gc + e.2, ?_, ?_⟩
      · rw [lookupA_setA, if_pos rfl]
      · rw [hwnew]
    · obtain ⟨gx, hgx, hb⟩ := hPB2 P hPB p1 x w p3 hPdec
      exact ⟨gx, hgx, hb⟩
  refine ⟨⟨?_, ?_, ?_, ?_⟩, ?_⟩
  · show ((setA st.gScore e.1 (gc + e.2)).map Prod.fst).Nodup
    cases hgn : lookupA st.gScore e.1 with
    | none =>
      rw [setA_of_lookup_none _ hgn, List.map_append, List.nodup_append]
      refine ⟨hnd, by simp, ?_⟩
      intro x hx hx2
      simp only [List.map_cons, List.map_nil, List.mem_singleton] at hx2
      subst hx2
      exact (lookupA_none_iff _ _).mp hgn hx
    | some gn =>
      rw [setA_keys_of_mem _ (List.mem_map_of_mem Prod.fst (lookupA_mem hgn))]
      exact hnd
  · intro q hq
    rcases setA_mem_sub hq with rfl | hq2
    · show e.1 ∈ nodeSupport adj start
      exact List.mem_cons_of_mem _ (adjTargets_mem he)
    · exact hsupp q hq2
  · intro q hq
    rcases setA_mem_sub hq with rfl | hq2
    · exact ⟨P ++ [(e.1, e.2)], hPnew, hndnew, hwnew, hPBnew⟩
    · obtain ⟨P2, hP2, hP2nd, hP2w, hP2B⟩ := hgood q hq2
      exact ⟨P2, hP2, hP2nd, hP2w, hPB2 P2 hP2B⟩
  · intro q hq
    rcases setA_mem_sub hq with rfl | hq2
    · refine ⟨gc + e.2, ?_⟩
      show lookupA (setA st.gScore e.1 (gc + e.2)) e.1 = some (gc + e.2)
      rw [lookupA_setA, if_pos rfl]
    · obtain ⟨g, hg⟩ := hopen q hq2
      by_cases hx : e.1 = q.1
      · refine ⟨gc + e.2, ?_⟩
        show lookupA (setA st.gScore e.1 (gc + e.2)) q.1 = some (gc + e.2)
        rw [lookupA_setA, if_pos hx]
      · refine ⟨g, ?_⟩
        show lookupA (setA st.gScore e.1 (gc + e.2)) q.1 = some g
        rw [lookupA_setA, if_neg hx]
        exact hg
  · cases hgn : lookupA st.gScore e.1 with
    | none =>
      have hfresh := setA_of_lookup_none (gc + e.2) hgn
      have hkeylen : st.gScore.length + 1 ≤ (nodeSupport adj start).toFinset.card := by
        have hnd2 : (e.1 :: st.gScore.map Prod.fst).Nodup := by
          rw [List.nodup_cons]
          exact ⟨(lookupA_none_iff _ _).mp hgn, hnd⟩
        have hsub : ∀ x ∈ e.1 :: st.gScore.map Prod.fst, x ∈ nodeSupport adj start := by
          intro x hx
          rcases List.mem_cons.mp hx with rfl | hx
          · exact List.mem_cons_of_mem _ (adjTargets_mem he)
          · rcases List.mem_map.mp hx with ⟨q, hq, rfl⟩
            exact hsupp q hq
        have := nodup_length_le_card hnd2 hsub
        simpa using this
      have h1 : sumRanks (candWeights adj start) (setA st.gScore e.1 (gc + e.2))
          = sumRanks (candWeights adj start) st.gScore
            + rankR (candWeights adj start) (gc + e.2) := by
        rw [hfresh]
        exact sumRanks_snoc _ _ _
      have h2 : (setA st.gScore e.1 (gc + e.2)).length = st.gScore.length + 1 := by
        rw [hfresh]
        simp
      have h3 : rankR (candWeights adj start) (gc + e.2) ≤ (candWeights adj start).length :=
        List.countP_le_length _
      rw [measureA_eq, measureA_eq]
      dsimp only [Store.relaxUpdate]
      rw [h1, h2]
      exact measure_fresh_arith h3 hkeylen (setA_length_le _ _ _)
    | some gn =>
      have hlt := himp gn hgn
      have htentmem : gc + e.2 ∈ candWeights adj start := by
        rw [← hwnew]
        exact GPath_weight_mem_cand hPnew hndnew
      have hranklt : rankR (candWeights adj start) (gc + e.2)
          < rankR (candWeights adj start) gn :=
        rankR_lt htentmem hlt
      have hsum := sumRanks_setA (candWeights adj start) (gc + e.2) hgn
      have hlen : (setA st.gScore e.1 (gc + e.2)).length = st.gScore.length := by
        have hkeys := setA_keys_of_mem (gc + e.2)
          (List.mem_map_of_mem Prod.fst (lookupA_mem hgn))
        have := congrArg List.length hkeys
        simpa using this
      rw [measureA_eq, measureA_eq]
      dsimp only [Store.relaxUpdate]
      rw [hlen]
      exact measure_update_arith hsum hranklt (setA_length_le _ _ _)

theorem relaxNeighbor_good {adj : List (String × List (String × ℝ))}
    {start current : String} {wpMap : List (String × Waypoint)} {endWp : Waypoint}
    {st : Store.AState} {e : String × ℝ}
    (hnn : ∀ u e, e ∈ (lookupA adj u).getD [] → 0 ≤ e.2)
    (he : e ∈ (lookupA adj current).getD [])
    (hinv : AInv adj start st) :
    AInv adj start (Store.relaxNeighbor wpMap endWp current st e) ∧
    measureA adj start (Store.relaxNeighbor wpMap endWp current st e) ≤
      measureA adj start st := by
  unfold Store.relaxNeighbor
  rw [show lookupA st.gScore current = lookupA st.gScore current from rfl]
  cases hgc : lookupA st.gScore current with
  | none => exact ⟨hinv, le_refl _⟩
  | some gc =>
    dsimp only
    cases hgn : lookupA st.gScore e.1 with
    | none =>
      dsimp only
      exact relaxUpdate_good hnn he hinv hgc
        (fun gn h => by rw [hgn] at h; exact Option.noConfusion h)
    | some gn =>
      dsimp only
      by_cases hc : gc + e.2 < gn
      · rw [if_pos hc]
        refine relaxUpdate_good hnn he hinv hgc ?_
        intro gn2 h2
        rw [hgn] at h2
        rw [← Option.some_inj.mp h2]
        exact hc
      · rw [if_neg hc]
        exact ⟨hinv, le_refl _⟩

theorem relaxFold_good {adj : List (String × List (String × ℝ))}
    {start current : String} {wpMap : List (String × Waypoint)} {endWp : Waypoint}
    (hnn : ∀ u e, e ∈ (lookupA adj u).getD [] → 0 ≤ e.2) :
    ∀ (l : List (String × ℝ)) (st : Store.AState),
      (∀ e ∈ l, e ∈ (lookupA adj current).getD []) →
      AInv adj start st →
      AInv adj start (l.foldl (Store.relaxNeighbor wpMap endWp current) st) ∧
      measureA adj start (l.foldl (Store.relaxNeighbor wpMap endWp current) st) ≤
        measureA adj start st := by
  intro l
  induction l with
  | nil =>
    intro st _ hinv
    exact ⟨hinv, le_refl _⟩
  | cons e rest ih =>
    intro st hl hinv
    rw [List.foldl_cons]
    have h1 := @relaxNeighbor_good adj start current wpMap endWp st e hnn
      (hl e (List.mem_cons_self _ _)) hinv
    have h2 := ih _ (fun x hx => hl x (List.mem_cons_of_mem _ hx)) h1.1
    exact ⟨h2.1, le_trans h2.2 h1.2⟩

theorem astarLoop_unreachable {adj : List (String × List (String × ℝ))}
    {start endId : String} {wpMap : List (String × Waypoint)} {endWp : Waypoint}
    (hnn : ∀ u e, e ∈ (lookupA adj u).getD [] → 0 ≤ e.2)
    (hunreach : ¬ Relation.ReflTransGen (AdjStep adj) start endId) :
    ∀ (n : ℕ) (st : Store.AState), AInv adj start st → measureA adj start st < n →
      Store.astarLoop adj wpMap endWp endId n st = some none := by
  intro n
  induction n with
  | zero =>
    intro st _ hm
    exact absurd hm (Nat.not_lt_zero _)
  | succ n ih =>
    intro st hinv hm
    rw [Store.astarLoop]
    cases hscan : Store.scanMin st.openSet with
    | none => rfl
    | some cf =>
      obtain ⟨current, f⟩ := cf
      have hmem : (current, f) ∈ st.openSet := scanMin_mem hscan
      have hne : ¬ (current = endId) := by
        intro heq
        obtain ⟨g, hg⟩ := hinv.2.2.2 _ hmem
        obtain ⟨P, hP, -, -, -⟩ := hinv.2.2.1 _ (lookupA_mem hg)
        exact hunreach (heq ▸ GPath_reachable hP)
      dsimp only
      rw [if_neg hne]
      have hinv1 : AInv adj start { st with openSet := eraseA st.openSet current } := by
        refine ⟨hinv.1, hinv.2.1, hinv.2.2.1, ?_⟩
        intro q hq
        exact hinv.2.2.2 q (eraseA_sub hq)
      have hm1 : measureA adj start { st with openSet := eraseA st.openSet current } + 1
          = measureA adj start st := by
        rw [measureA_eq, measureA_eq]
        have := eraseA_length_of_mem
          (l := st.openSet) (k := current) (List.mem_map_of_mem Prod.fst hmem)
        dsimp only at this ⊢
        omega
      have hrelax := @relaxFold_good adj start current wpMap endWp hnn
        ((lookupA adj current).getD []) { st with openSet := eraseA st.openSet current }
        (fun e he => he) hinv1
      exact ih _ hrelax.1 (by omega)

/-- C5: `findPathBetweenWaypoints` on two existing waypoints with no
connecting path in the built graph terminates normally with the source's
`return null` (no exception, and — the search being a pure function of its
inputs — the store is untouched): for all nonnegative stored distances and
every sufficient loop fuel the result is `some none`. -/
theorem findPath_unreachable_null (s : Store) (a b : String) (wa wb : Waypoint)
    (hd : ∀ c ∈ s.connections, 0 ≤ c.distance)
    (hwa : lookupA (Store.waypointMapOf s.waypoints) a = some wa)
    (hwb : lookupA (Store.waypointMapOf s.waypoints) b = some wb)
    (hunreach : ¬ Relation.ReflTransGen
      (AdjStep (Store.buildAdj s.waypoints s.connections)) a b) :
    ∃ N, ∀ fuel, N ≤ fuel →
      Store.findPathBetweenWaypoints s fuel a b = some none := by
  have hnn := buildAdj_nonneg s.waypoints s.connections hd
  have hinv0 : AInv (Store.buildAdj s.waypoints s.connections) a
      { openSet := [(a, Store.heuristic wa wb)], cameFrom := [],
        gScore := [(a, 0)] } := by
    refine ⟨by simp, ?_, ?_, ?_⟩
    · intro q hq
      simp only [List.mem_singleton] at hq
      subst hq
      exact List.mem_cons_self _ _
    · intro q hq
      simp only [List.mem_singleton] at hq
      subst hq
      refine ⟨[(a, 0)], GPath.base, by simp, by simp [weightSum], ?_⟩
      intro p1 x w p2 hdec
      cases p1 with
      | nil =>
        simp only [List.nil_append, List.cons.injEq, Prod.mk.injEq] at hdec
        obtain ⟨⟨rfl, rfl⟩, rfl⟩ := hdec
        refine ⟨0, by simp [lookupA], ?_⟩
        simp [weightSum]
      | cons c t =>
        exfalso
        have hlen := congrArg List.length hdec
        simp [List.length_append] at hlen
    · intro q hq
      simp only [List.mem_singleton] at hq
      subst hq
      exact ⟨0, by simp [lookupA]⟩
  refine ⟨measureA (Store.buildAdj s.waypoints s.connections) a
    { openSet := [(a, Store.heuristic wa wb)], cameFrom := [],
      gScore := [(a, 0)] } + 1, ?_⟩
  intro fuel hfuel
  have hloop := @astarLoop_unreachable (Store.buildAdj s.waypoints s.connections) a b
    (Store.waypointMapOf s.waypoints) wb hnn hunreach fuel
    { openSet := [(a, Store.heuristic wa wb)], cameFrom := [],
      gScore := [(a, 0)] } hinv0 (by omega)
  unfold Store.findPathBetweenWaypoints
  dsimp only [Store.getAllWaypoints, Store.getAllConnections]
  rw [hwa, hwb]
  exact hloop

theorem findPath_unreachable_null_witness :
    ∃ N, ∀ fuel, N ≤ fuel →
      Store.findPathBetweenWaypoints discStore fuel "A" "B" = some none := by
  refine findPath_unreachable_null discStore "A" "B"
    ⟨"A", 1, 0, 0, "corridor", none, none, none⟩
    ⟨"B", 1, 5, 5, "corridor", none, none, none⟩ ?_ ?_ ?_ ?_
  · intro c hc
    simp [discStore] at hc
  · rfl
  · rfl
  · intro h
    rcases Relation.ReflTransGen.cases_head h with heq | ⟨c, hc, -⟩
    · exact absurd heq (by decide)
    · obtain ⟨w, hw⟩ := hc
      simp [discStore, Store.buildAdj, Store.addVertical, lookupA] at hw
